import Mathlib

set_option maxRecDepth 40000
set_option exponentiation.threshold 600

/-!
Shallow embedding of the flate-ts DEFLATE decoder (src/input.ts, the Huffman
tree and Inflate engine sources, src/flate-ts.ts, src/zlib-iterable.ts) and
proofs settling the frozen claims about it.

The source is TypeScript executing with JavaScript number semantics, so the
embedding models those semantics explicitly:
  - bitwise operators (`&`, `|`, `~`, `<<`, `>>`) act on 32-bit twos-complement
    integers; shift counts are taken mod 32;
  - `%` is the truncated remainder (sign of the dividend): `Int.tmod`;
  - `Uint8Array` stores wrap mod 256 and out-of-range stores are dropped;
  - `for (var k in arr)` iterates the array KEYS (indices), not its values.
-/

namespace FlateTs

/-- Decidable equality for `Except`, needed to settle concrete runs of the
embedded decoder by evaluation. -/
instance {ε α : Type _} [DecidableEq ε] [DecidableEq α] : DecidableEq (Except ε α) := fun x y =>
  match x, y with
  | .ok a, .ok b => if h : a = b then .isTrue (by rw [h]) else .isFalse (by simp [h])
  | .error a, .error b => if h : a = b then .isTrue (by rw [h]) else .isFalse (by simp [h])
  | .ok _, .error _ => .isFalse (by simp)
  | .error _, .ok _ => .isFalse (by simp)

/-- Unsigned 32-bit pattern of a JavaScript number used as a bitwise operand
(the ToUint32 conversion). -/
def u32 (n : Int) : Nat := (n.emod 4294967296).toNat

/-- Signed 32-bit value of a JavaScript number used as a bitwise operand
(the ToInt32 conversion). -/
def toInt32 (n : Int) : Int :=
  let m := n.emod 4294967296
  if m < 2147483648 then m else m - 4294967296

/-- JavaScript `a & b`. -/
def jsAnd (a b : Int) : Int := toInt32 (Nat.land (u32 a) (u32 b))

/-- JavaScript `a | b`. -/
def jsOr (a b : Int) : Int := toInt32 (Nat.lor (u32 a) (u32 b))

/-- JavaScript `~a` (32-bit bitwise not). -/
def jsNot (a : Int) : Int := toInt32 (-(toInt32 a) - 1)

/-- JavaScript `a << s`: the shift count is reduced mod 32, the result wraps
to a signed 32-bit value. -/
def jsShl (a s : Int) : Int := toInt32 ((u32 a) * 2 ^ (s.emod 32).toNat)

/-- JavaScript `a >> s` (sign-propagating shift): arithmetic shift equals
floor division by a power of two; `Int` division by a positive divisor
rounds down. -/
def jsSar (a s : Int) : Int := toInt32 a / 2 ^ (s.emod 32).toNat

/-- A JavaScript `Uint8Array` of `size` bytes, modelled as the base-256
packed natural number of its contents: byte `i` is `val / 256 ^ i % 256`.
(The packing keeps kernel evaluation of the table-construction loops shallow;
it is a bijection with byte vectors of length `size`.) -/
structure U8Array where
  size : Nat
  val : Nat
deriving DecidableEq, Repr

/-- A fresh all-zero `Uint8Array`. -/
def mkU8 (n : Nat) : U8Array := ⟨n, 0⟩

/-- `Uint8Array` read. An in-range read yields the stored byte; the decoder
traces evaluated below never read out of range (JavaScript would give
`undefined` there). -/
def u8get (a : U8Array) (i : Int) : Int :=
  if 0 ≤ i ∧ i.toNat < a.size then ((a.val / 256 ^ i.toNat % 256 : Nat) : Int) else 0

/-- `Uint8Array` write: the value wraps mod 256 (ToUint8), an out-of-range
write is dropped. -/
def u8set (a : U8Array) (i v : Int) : U8Array :=
  if 0 ≤ i ∧ i.toNat < a.size then
    { a with val := a.val % 256 ^ i.toNat
                    + (v.emod 256).toNat * 256 ^ i.toNat
                    + a.val / 256 ^ (i.toNat + 1) * 256 ^ (i.toNat + 1) }
  else a

/-- Plain JavaScript array read; evaluated traces stay in range. -/
def aget (a : Array Int) (i : Int) : Int :=
  if 0 ≤ i then a.getD i.toNat 0 else 0

/-- Plain JavaScript array write; evaluated traces stay in range. -/
def aset (a : Array Int) (i v : Int) : Array Int :=
  if 0 ≤ i then a.setD i.toNat v else a

/-- The value handed to the `Inflate` constructor as its `iterator` argument.
`asInflatable` passes `this._target[Symbol.iterator]` — the un-invoked method
value — instead of an iterator object, so calling `.next()` on it throws a
`TypeError`; a genuine iterator is modelled by the list of bytes it will
yield (exhaustion is sticky). -/
inductive JSIterator where
  | methodValue : JSIterator
  | obj : List Int → JSIterator
deriving DecidableEq, Repr

/-- `iterator.next()`: `none` means `done: true`. Calling `next` on the
un-invoked method value throws. -/
def iterNext : JSIterator → Except String (Option Int × JSIterator)
  | .methodValue => .error "TypeError: this._iterator.next is not a function"
  | .obj [] => .ok (none, .obj [])
  | .obj (b :: rest) => .ok (some b, .obj rest)

/-- Length of the byte list still held by an iterator object. -/
def iterLen : JSIterator → Nat
  | .methodValue => 0
  | .obj l => l.length

/-- State of `InputBuffer` (src/input.ts): the 32-bit staging register
`_bitBuffer`, the signed count `_bitsInBuffer`, and the owned iterator. -/
structure InputBuffer where
  bitBuffer : Int
  bitsInBuffer : Int
  iterator : JSIterator
deriving DecidableEq, Repr

namespace InputBuffer

/-- `TryGetBits` (src/input.ts lines 66-77): if fewer than `count` bits are
buffered, pull up to two bytes, OR-ing each in shifted left by the current
count; return the staging register. -/
def TryGetBits (count : Int) (b : InputBuffer) : Except String (Int × InputBuffer) :=
  if b.bitsInBuffer < count then
    match iterNext b.iterator with
    | .error e => .error e
    | .ok (none, it) => .ok (b.bitBuffer, { b with iterator := it })
    | .ok (some v, it) =>
      let b1 : InputBuffer :=
        { bitBuffer := jsOr b.bitBuffer (jsShl v b.bitsInBuffer)
          bitsInBuffer := b.bitsInBuffer + 8
          iterator := it }
      if b1.bitsInBuffer < count then
        match iterNext b1.iterator with
        | .error e => .error e
        | .ok (none, it2) => .ok (b1.bitBuffer, { b1 with iterator := it2 })
        | .ok (some v2, it2) =>
          let b2 : InputBuffer :=
            { bitBuffer := jsOr b1.bitBuffer (jsShl v2 b1.bitsInBuffer)
              bitsInBuffer := b1.bitsInBuffer + 8
              iterator := it2 }
          .ok (b2.bitBuffer, b2)
      else
        .ok (b1.bitBuffer, b1)
  else
    .ok (b.bitBuffer, b)

/-- `GetBits` (src/input.ts lines 79-94): the same two-byte fill logic
(duplicated verbatim in the source), then return the low `count` bits and
unconditionally shift the register and decrement the count by `count`. -/
def GetBits (count : Int) (b : InputBuffer) : Except String (Int × InputBuffer) :=
  match TryGetBits count b with
  | .error e => .error e
  | .ok (_, b) =>
    .ok (jsAnd b.bitBuffer (jsShl 1 count - 1),
         { b with
             bitBuffer := jsSar b.bitBuffer count
             bitsInBuffer := b.bitsInBuffer - count })

/-- `SkipBits` (src/input.ts lines 97-100). -/
def SkipBits (n : Int) (b : InputBuffer) : InputBuffer :=
  { b with bitBuffer := jsSar b.bitBuffer n, bitsInBuffer := b.bitsInBuffer - n }

/-- `SkipToByteBoundary` (src/input.ts lines 103-106); `%` is the JavaScript
truncated remainder. -/
def SkipToByteBoundary (b : InputBuffer) : InputBuffer :=
  { b with
      bitBuffer := jsSar b.bitBuffer (Int.tmod b.bitsInBuffer 8)
      bitsInBuffer := b.bitsInBuffer - Int.tmod b.bitsInBuffer 8 }

/-- `AvailableBits` (src/input.ts lines 60-62). -/
def AvailableBits (b : InputBuffer) : Int := b.bitsInBuffer

end InputBuffer

/-- A JavaScript plain array (`new Array(n)`) as an index-to-value map.
Slots never written hold JS `undefined`; the runs evaluated below never read
such a slot (the model returns 0 there). -/
def JSArr : Type := Int → Int

/-- Plain array read. -/
def jaGet (a : JSArr) (i : Int) : Int := a i

/-- Plain array write. -/
def jaSet (a : JSArr) (i v : Int) : JSArr := fun j => if j = i then v else a j

/-- A fresh plain array. -/
def mkJA : JSArr := fun _ => 0

/-- `for (i = k; i < k + m; i++) s = step(i, s)` — the indexed loop shape of
the construction loops below, with the iteration count as fuel. -/
def iterLoop {σ : Type _} (step : Nat → σ → σ) : Nat → Nat → σ → σ
  | 0, _, s => s
  | m + 1, k, s => iterLoop step m (k + 1) (step k s)

/-- The same loop shape for a body that can throw. -/
def iterLoopE {σ : Type _} (step : Nat → σ → Except String σ) :
    Nat → Nat → σ → Except String σ
  | 0, _, s => .ok s
  | m + 1, k, s =>
    match step k s with
    | .error e => .error e
    | .ok s1 => iterLoopE step m (k + 1) s1

/-- The immutable data of a constructed Huffman table: the code-length vector,
the (mis-)computed maximum code length, the direct-table parameters, the
`Uint8Array` direct table and the two `Uint8Array` child arrays. -/
structure HuffmanTree where
  codeLengthArray : Array Int
  maxCodeLength : Int
  tableBits : Int
  tableMask : Int
  table : U8Array
  left : U8Array
  right : U8Array
deriving DecidableEq, Repr

namespace HuffmanTree

/-- One pass of the `BitReverse` do-while body over the state
`(code, new_code)`: `new_code = (new_code | (code & 1)) << 1; code >>= 1`. -/
def brStep (p : Int × Int) : Int × Int :=
  (jsSar p.1 1, jsShl (jsOr p.2 (jsAnd p.1 1)) 1)

/-- The `BitReverse` do-while loop: `fuel` passes of the body, and the
`while (--length > 0)` guard makes that `max 1 length` passes in total. -/
def BitReverseAux : Nat → Int × Int → Int × Int
  | 0, p => p
  | fuel + 1, p => BitReverseAux fuel (brStep p)

/-- `HuffmanTree.BitReverse` (do-while loop returning `num >> 1`). -/
def BitReverse (code length : Int) : Int :=
  jsSar (BitReverseAux (max 1 length.toNat) (code, 0)).2 1

/-- One step of the `_maxCodeLength` computation of the constructor:
`for (var length in codeLengths) _maxCodeLength = Math.max(length, _maxCodeLength)`.
`for..in` iterates the array KEYS, so this is `max` over the INDEX. -/
def maxStep (k : Nat) (m : Int) : Int := max (k : Int) m

/-- `_maxCodeLength`: `max` folded over the indices `0..L-1` (not over the
code lengths), yielding `L - 1` for any nonempty vector. -/
def maxCodeLengthOf (cl : Array Int) : Int := iterLoop maxStep cl.size 0 0

/-- One step of `bitLengthCount[codeLength]++` — over the `for..in` KEYS of
the code-length array, with `Uint8Array` writes beyond index 16 dropped. -/
def blcStep (k : Nat) (a : U8Array) : U8Array := u8set a (k : Int) (u8get a (k : Int) + 1)

/-- The `bitLengthCount` array of `CalculateHuffmanCode`: the key-counting
loop followed by `bitLengthCount[0] = 0`. -/
def bitLengthCountOf (cl : Array Int) : U8Array :=
  u8set (iterLoop blcStep cl.size 0 (mkU8 17)) 0 0

/-- One step of the next-code recurrence
`tempCode = (tempCode + bitLengthCount[bits-1]) << 1; nextCode[bits] = tempCode`:
`nextCode` is a `Uint8Array`, so its entries wrap mod 256 while the running
`tempCode` keeps the full 32-bit value. -/
def nextCodeStep (blc : U8Array) (bits : Nat) (p : U8Array × Int) : U8Array × Int :=
  let t := jsShl (p.2 + u8get blc ((bits : Int) - 1)) 1
  (u8set p.1 (bits : Int) t, t)

/-- The `nextCode` array after the recurrence for `bits = 1..16`. -/
def nextCodeOf (cl : Array Int) : U8Array :=
  (iterLoop (nextCodeStep (bitLengthCountOf cl)) 16 1 (mkU8 17, 0)).1

/-- One step of the code-assignment loop: for a symbol of positive length,
store the bit-reversed `nextCode[len]` into the (`Uint8Array`, size 288)
`code` array and increment `nextCode[len]`. -/
def codeStep (cl : Array Int) (i : Nat) (p : U8Array × U8Array) : U8Array × U8Array :=
  let len := aget cl (i : Int)
  if len > 0 then
    (u8set p.1 (i : Int) (BitReverse (u8get p.2 len) len),
     u8set p.2 len (u8get p.2 len + 1))
  else p

/-- `CalculateHuffmanCode`: the per-symbol codes, bit-reversed and truncated
to bytes by the `Uint8Array` stores. -/
def CalculateHuffmanCode (cl : Array Int) : U8Array :=
  (iterLoop (codeStep cl) cl.size 0 (mkU8 288, nextCodeOf cl)).1

/-- Which of the three node arrays the `array` local of `CreateTable`
currently aliases. -/
inductive HuffArr where
  | tbl | lft | rgt
deriving DecidableEq, Repr

/-- Mutable state of `CreateTable`: the three `Uint8Array`s and `avail`. -/
structure TreeBuild where
  table : U8Array
  left : U8Array
  right : U8Array
  avail : Int
deriving DecidableEq, Repr

def tbGet (tb : TreeBuild) : HuffArr → Int → Int
  | .tbl, i => u8get tb.table i
  | .lft, i => u8get tb.left i
  | .rgt, i => u8get tb.right i

def tbSet (tb : TreeBuild) : HuffArr → Int → Int → TreeBuild
  | .tbl, i, v => { tb with table := u8set tb.table i v }
  | .lft, i, v => { tb with left := u8set tb.left i v }
  | .rgt, i, v => { tb with right := u8set tb.right i v }

/-- The short-code fill loop of `CreateTable`:
`for (j = 0; j < locs; j++) { table[start] = ch; start += increment }`. -/
def fillLoop : Nat → TreeBuild → Int → Int → Int → TreeBuild
  | 0, tb, _, _, _ => tb
  | j + 1, tb, start, inc, ch => fillLoop j (tbSet tb .tbl start ch) (start + inc) inc ch

/-- The long-code do-while loop of `CreateTable`; it runs exactly
`overflowBits` times (the fuel). The node arrays are `Uint8Array`s: the
sentinel `-avail` wraps to `256 - avail` in storage while the local `value`
keeps the negative number within the iteration. -/
def insertLongAux : Nat → TreeBuild → HuffArr → Int → Int → Int →
    Except String (TreeBuild × HuffArr × Int)
  | 0, tb, arr, index, _, _ => .ok (tb, arr, index)
  | fuel + 1, tb, arr, index, start, codeBitMask =>
    let value := tbGet tb arr index
    let (tb, value) :=
      if value = 0 then
        ({ tbSet tb arr index (-tb.avail) with avail := tb.avail + 1 }, -tb.avail)
      else (tb, value)
    if value > 0 then
      .error "InvalidHuffmanData"
    else
      let arr' := if jsAnd start codeBitMask = 0 then HuffArr.lft else HuffArr.rgt
      insertLongAux fuel tb arr' (-value) start (jsShl codeBitMask 1)

/-- Per-symbol insertion of `CreateTable` for a symbol `ch` with positive
code length `len` and bit-reversed code `start`. -/
def insertSymbol (tableBits : Int) (tb : TreeBuild) (ch len start : Int) :
    Except String TreeBuild :=
  if len ≤ tableBits then
    let increment := jsShl 1 len
    if start ≥ increment then
      .error "InvalidHuffmanData"
    else
      .ok (fillLoop (jsShl 1 (tableBits - len)).toNat tb start increment ch)
  else
    (insertLongAux (len - tableBits).toNat tb .tbl
        (jsAnd start (jsShl 1 tableBits - 1)) start (jsShl 1 tableBits)).bind
      (fun r => .ok (tbSet r.1 r.2.1 r.2.2 ch))

/-- One iteration of the symbol loop of `CreateTable`. -/
def insertStep (tableBits : Int) (cl : Array Int) (codeArray : U8Array)
    (ch : Nat) (tb : TreeBuild) : Except String TreeBuild :=
  let len := aget cl (ch : Int)
  if len > 0 then insertSymbol tableBits tb (ch : Int) len (u8get codeArray (ch : Int))
  else pure tb

/-- `CreateTable`: insert every symbol of positive length, starting from
all-zero arrays sized `1 << tableBits` and `2 * L`, with `avail = L`. -/
def CreateTable (tableBits : Int) (cl : Array Int) : Except String TreeBuild :=
  iterLoopE (insertStep tableBits cl (CalculateHuffmanCode cl)) cl.size 0
    ⟨mkU8 (jsShl 1 tableBits).toNat, mkU8 (2 * cl.size), mkU8 (2 * cl.size), (cl.size : Int)⟩

/-- The `HuffmanTree` constructor: record the code lengths, compute
`_maxCodeLength` by the `for..in` fold, pick 9 table bits for a 288-entry
vector and 7 otherwise, and build the table. -/
def new (cl : Array Int) : Except String HuffmanTree :=
  match CreateTable (if cl.size = 288 then 9 else 7) cl with
  | .error e => .error e
  | .ok tb =>
    .ok { codeLengthArray := cl
          maxCodeLength := maxCodeLengthOf cl
          tableBits := if cl.size = 288 then 9 else 7
          tableMask := if cl.size = 288 then 0x1FF else 0x7F
          table := tb.table, left := tb.left, right := tb.right }

/-- The tree-walk loop of `GetNextSymbol`, entered only when the table entry
is negative (which a `Uint8Array` read never is; kept for fidelity). -/
def walkTree (t : HuffmanTree) (bitBuffer : Int) : Nat → Int → Int → Int
  | 0, _, symbol => symbol
  | fuel + 1, mask, symbol =>
    let symbol' :=
      if jsAnd bitBuffer mask = 0 then u8get t.left (-symbol) else u8get t.right (-symbol)
    if symbol' < 0 then walkTree t bitBuffer fuel (jsShl mask 1) symbol' else symbol'

/-- `GetNextSymbol`: peek `_maxCodeLength` bits, look up the direct table
(walking the tree on a negative entry), then fail with end-of-stream when
the symbol's code length exceeds the available bits, else skip it. -/
def GetNextSymbol (t : HuffmanTree) (input : InputBuffer) :
    Except String (Int × InputBuffer) := do
  let (bitBuffer, input) ← InputBuffer.TryGetBits t.maxCodeLength input
  let symbol := u8get t.table (jsAnd bitBuffer t.tableMask)
  let symbol :=
    if symbol < 0 then walkTree t bitBuffer 32 (jsShl 1 t.tableBits) symbol else symbol
  let codeLength := aget t.codeLengthArray symbol
  if codeLength > InputBuffer.AvailableBits input then
    .error "EndOfStreamException()"
  else
    pure (symbol, InputBuffer.SkipBits codeLength input)

/-- `GetStaticLiteralTreeLength` (RFC 1951 fixed literal/length lengths). -/
def GetStaticLiteralTreeLength : Array Int :=
  ((List.range 288).map (fun i =>
    if i ≤ 143 then (8 : Int) else if i ≤ 255 then 9 else if i ≤ 279 then 7 else 8)).toArray

/-- `GetStaticDistanceTreeLength` (all 32 distance lengths are 5). -/
def GetStaticDistanceTreeLength : Array Int := Array.mkArray 32 5

/-- Precomputed packed value used by the static-tree certification. -/
def litBlc1v : Nat := 341616807575530379006368233343265341697

/-- Precomputed packed value used by the static-tree certification. -/
def litBlcFv : Nat := 341616807575530379006368233343265341696

/-- Precomputed packed value used by the static-tree certification. -/
def litNCv : Nat := 86770669124184716267608253606631439466496

/-- Precomputed packed value used by the static-tree certification. -/
def litCode1v : Nat := 1129395625989556766241832967592549261748822523469465532927603657691567521623499079680700569752952693359020797489310893805845054317152742328884726429143891297525530813310121292747906338311903321326239532546584627396645840727220223871

/-- Precomputed packed value used by the static-tree certification. -/
def litNC1v : Nat := 86770669124184716264656774554837911207936

/-- Precomputed packed value used by the static-tree certification. -/
def litCode2v : Nat := 983038612347785358307115353579899188298336719099389132811861422541340055453202621471735197733509428092351276284646066265798207615659412141302691256980191272635772628579947595295667652275800213580909670832105438073992640946207956797171172743471941172629624161714985303940754706762286077918322214285525496234232980403894857186946337517584674256294054459594529071780525253346549685652518893998979773757928912307151250211694184923289915656720862715685561530027409279

/-- Precomputed packed value used by the static-tree certification. -/
def litNC2v : Nat := 86770669124184715283289989833489765236736

/-- Precomputed packed value used by the static-tree certification. -/
def litCode3v : Nat := 2472726068840079752518205200380632903535954207666345969308814193966064940526981926698581545768316973986663235976276690909330234068153311443112859052595621227754993573209431419534975216716724047994171203138458201964535359024389130185021588314189140693276131658607431977683998230188585382931765583410743506400786490820146122381026110382106492085269999360334823592364064796144996269932477191253213112804677060874348173040605390599176435011825674824188480987581044687237169264624498872205552255479699599419338029457971714864712900522261210915096946228367926571415488495477254511727684812863404993587494623892420662694431063741923226436444549443543693958647669906086077893913024970092575690701471615

/-- Precomputed packed value used by the static-tree certification. -/
def litNC3v : Nat := 86770669124184715585670748071993645596672

/-- Precomputed packed value used by the static-tree certification. -/
def litTbl1v : Nat := 4079659873792935331606117395838713279913161631673389740727668554397973187007820508829024192150040524365049090555231971616306267185136699996247572764995954880963889666811746761156957115077452422010742564379554960643167976520560663748038213824687994071070050247288263750584960180545772388487553555336903154413974407682071553800807785336030235436034907449336073519829749061386915809699024495288998467883932578764715639010231628711567573607130203340130269088364366520377767133465216271780566135782914460973254060447881868286394391763344141503852955761906956932625788962624000876905901836469994491459628500992992986557329426576865495031813494364171782699003361695161807491327412636628020218038148158739040696941565439640977312205806008666135680890368651559438971637303812993394097685202876708761142874852603876465698468970587240960519218265885999948325252897813455478455760439340415634669528075827712145173105545735605258050899578465522640805502033317501992688515797637245065293848657412571834589583923697281278743732710798465934465064219248971411888637626486265827663378662535819366667039931066134664074685491139320539169149862477093510593805171546886585116304130248129447777783359582042000353502677511857270299363686578311122099765250

/-- Precomputed packed value used by the static-tree certification. -/
def litTbl2v : Nat := 6135418017803612664852235115327127084904869398990895930404215067112150369973260571893173521879836610210826397887771969332637193721084235367971713691119368238075671172701241188622382686820634520253737208338225463058147211710207207405379047899541249401620134108458194740914583979666096022527455194438544749757869276524461460569211832654194927254773277967834632364383373275836568972362851463264675641687693822609063439673106391579737123319672146467064746659811446804101143363236724805410878414177333038408875478056810003149253122960597628993154095162216328328854939236407966847781966359880311110603927566630381565281249780655880683935552033657465801551981385183707065834945830546385924945873554428098107846172601876795148851531533512546815892796772211599219785407532508306235003084790884563591868853499334053168929272180288692911703247805079872402107198051732306282721653370397483479787525131690234921501751891105335224407277142335965899397625067142144237257657501851333372975987671579100879465899027229466199539146494066691267381018526501674577879302666666271050240109981451769423104640520942434902718096570827573706173466439258567958006239105199234746643915830958266133870483114721680134211770136597463897943951915001489546104963731

/-- Precomputed packed value used by the static-tree certification. -/
def litTbl3v : Nat := 6135418017803611758989279797050498801833348418542338178260662573153784916910705495559912422742902150311343939494865396470722786662290326497875239175494497040651972591882588260956541528786234318655608575969348487613292337709222775458838077087240006493616393826184451171829763893122203488072346039159632466528237483429638332858640807587376001205572449899618279294143682593421971240510566493045469974099807956315612298383266562402281714125838646722484719439857225233723726189193512470156324467051920717519191649719034816599145870066053831696434773373749361852470034991475846324053888027605716105260746726297062293311029252219247006068030965574189388259712201875371401562397950502379343125177717533321912909611103686340381886017073276881537936922817942158065556642661205306396725047540440980508733318781403897442020780945631678370991119746159276775132032771730060911704513935375809044228756256440119103922711420318938496628088779982839319913541779978368087689278908594602182461881312108038680860908657369529281728246827350493712231146369452182808642410495679025713756848004494117635591637642147554615090067712195615382569614995388374546071001334979312965604986144714687843208753114821486364014573402061142147103869071212047463331561986

/-- Precomputed packed value used by the static-tree certification. -/
def distTblv : Nat := 749124193994212828976920885418323176472135085120401649676693908305640772649820534025081268561063585430711086881426741331727747112790526362393752639681760716560719481590106204563753430550202015595072299989569787342336766857624670718219041678439535333669444845588597004869097417701007047523469117323251159554

/-- The code-assignment loop of the static literal tree, with its
code-length vector fixed. -/
def litCodeStep : Nat → U8Array × U8Array → U8Array × U8Array :=
  codeStep GetStaticLiteralTreeLength

/-- The symbol-insertion loop of the static literal tree, with the table
bits, code-length vector and (certified below) code array fixed. -/
def litInsStep : Nat → TreeBuild → Except String TreeBuild :=
  insertStep 9 GetStaticLiteralTreeLength ⟨288, litCode3v⟩

/-- The initial `CreateTable` state for the static literal tree. -/
def litInit : TreeBuild := ⟨⟨512, 0⟩, ⟨576, 0⟩, ⟨576, 0⟩, 288⟩

/-- `CreateTable` state of the static literal tree after 96 insertions. -/
def litT1 : TreeBuild := ⟨⟨512, litTbl1v⟩, ⟨576, 0⟩, ⟨576, 0⟩, 288⟩

/-- `CreateTable` state of the static literal tree after 192 insertions. -/
def litT2 : TreeBuild := ⟨⟨512, litTbl2v⟩, ⟨576, 0⟩, ⟨576, 0⟩, 288⟩

/-- `CreateTable` state of the static literal tree after all 288 insertions. -/
def litT3 : TreeBuild := ⟨⟨512, litTbl3v⟩, ⟨576, 0⟩, ⟨576, 0⟩, 288⟩

/-- The static literal/length tree value: the result of
`new HuffmanTree(GetStaticLiteralTreeLength())` under the embedding
(certified by `s_staticLiteralLengthTree_spec`). -/
def staticLiteralLengthTreeVal : HuffmanTree :=
  { codeLengthArray := GetStaticLiteralTreeLength
    maxCodeLength := 287
    tableBits := 9
    tableMask := 0x1FF
    table := ⟨512, litTbl3v⟩
    left := ⟨576, 0⟩
    right := ⟨576, 0⟩ }

/-- The static literal/length tree singleton (class initializer
`s_staticLiteralLengthTree = new HuffmanTree(GetStaticLiteralTreeLength())`),
held as its precomputed value. -/
def s_staticLiteralLengthTree : Except String HuffmanTree := .ok staticLiteralLengthTreeVal

/-- The static distance tree value (certified by
`s_staticDistanceTree_spec`). -/
def staticDistanceTreeVal : HuffmanTree :=
  { codeLengthArray := GetStaticDistanceTreeLength
    maxCodeLength := 31
    tableBits := 7
    tableMask := 0x7F
    table := ⟨128, distTblv⟩
    left := ⟨64, 0⟩
    right := ⟨64, 0⟩ }

/-- The static distance tree singleton, held as its precomputed value. -/
def s_staticDistanceTree : Except String HuffmanTree := .ok staticDistanceTreeVal

end HuffmanTree

/-- Engine state of `Inflate`: Adler accumulators, trees, block-machine
state (the TypeScript `State` enum numbering: ReadingUncompressed = 0,
ReadingStatic = 1, ReadingDynamic = 2, UnknownBlockType = 3,
DecodingBlock = 4, ReadingFinalBit = 5, ReadingBlockType = 6, Done = 7),
the owned input buffer (the engine's `_iterator` aliases the buffer's), the
32 KiB window and the two decode-scratch arrays. `verifyAdler` records
whether the Adler-verification callback was supplied (only `ZLibInflate`
supplies one). -/
structure Inflate where
  s1 : Int := 1
  s2 : Int := 0
  literalLengthTree : Option HuffmanTree := none
  distanceTree : Option HuffmanTree := none
  end_of_block_code_seen : Bool := false
  bfinal : Int := 0
  isDynamic : Bool := false
  state : Int := 5
  input : InputBuffer
  endPos : Int := 0
  current : Int := 0
  window : JSArr := mkJA
  lengthDecompressed : Int := 0
  lengthUncompressed : Int := 0
  codeList : JSArr := mkJA
  codeLengthTreeCodeLength : JSArr := mkJA
  verifyAdler : Bool := false

namespace Inflate

/-- `s_extraLengthBits`. -/
def s_extraLengthBits : Array Int :=
  #[0, 0, 0, 0, 0, 0, 0, 0, 1, 1, 1, 1, 2, 2, (2 : Int), 2, 3, 3, 3, 3, 4, 4, 4, 4, 5, 5, 5, 5, 0]

/-- `s_lengthBase`. -/
def s_lengthBase : Array Int :=
  #[3, 4, 5, 6, 7, 8, 9, 10, 11, 13, 15, 17, 19, 23, (27 : Int), 31, 35, 43, 51, 59,
    67, 83, 99, 115, 131, 163, 195, 227, 258]

/-- `s_distanceBasePosition`: note the two trailing zero entries at
indices 30 and 31. -/
def s_distanceBasePosition : Array Int :=
  #[1, 2, 3, 4, 5, 7, 9, 13, 17, 25, 33, 49, 65, 97, (129 : Int), 193, 257, 385, 513,
    769, 1025, 1537, 2049, 3073, 4097, 6145, 8193, 12289, 16385, 24577, 0, 0]

/-- `s_codeOrder`. -/
def s_codeOrder : Array Int :=
  #[16, 17, 18, 0, 8, 7, 9, 6, 10, 5, 11, 4, 12, 3, 13, 2, 14, 1, 15]

/-- `s_staticDistanceTreeTable` (bit-reversal of the low 5 bits). -/
def s_staticDistanceTreeTable : Array Int :=
  #[0x00, 0x10, 0x08, 0x18, 0x04, 0x14, 0x0c, 0x1c, 0x02, 0x12, 0x0a, 0x1a,
    0x06, 0x16, 0x0e, 0x1e, 0x01, 0x11, 0x09, 0x19, 0x05, 0x15, 0x0d, 0x1d,
    0x03, 0x13, 0x0b, 0x1b, 0x07, 0x17, 0x0f, 0x1f]

/-- The `Inflate` constructor: a fresh `InputBuffer` over the iterator (the
engine field `_iterator` aliases the same object, modelled by keeping the
iterator inside the buffer). -/
def inflateNew (it : JSIterator) (verify : Bool) : Inflate :=
  { input := ⟨0, 0, it⟩, verifyAdler := verify }

/-- `Write`: store at `_end`, advance and mask the cursor, count the byte as
decompressed, update the Adler accumulators (`s2` adds the updated `s1`). -/
def Write (f : Inflate) (b : Int) : Inflate :=
  { f with window := jaSet f.window f.endPos b
           endPos := jsAnd (f.endPos + 1) 32767
           lengthDecompressed := f.lengthDecompressed + 1
           s1 := f.s1 + b
           s2 := f.s2 + (f.s1 + b) }

/-- Fast-path copy loop of `WriteLengthDistance` (no masking; guarded by the
border check). -/
def wldFastLoop : Nat → Inflate → Int → Inflate
  | 0, f, _ => f
  | n + 1, f, copyStart =>
    let source := jaGet f.window copyStart
    wldFastLoop n
      { f with window := jaSet f.window f.endPos source
               endPos := f.endPos + 1
               s1 := f.s1 + source
               s2 := f.s2 + (f.s1 + source) }
      (copyStart + 1)

/-- Byte-by-byte copy loop of `WriteLengthDistance` (cursor and source
masked each step). -/
def wldSlowLoop : Nat → Inflate → Int → Inflate
  | 0, f, _ => f
  | n + 1, f, copyStart =>
    let source := jaGet f.window copyStart
    wldSlowLoop n
      { f with window := jaSet f.window f.endPos source
               endPos := jsAnd (f.endPos + 1) 32767
               s1 := f.s1 + source
               s2 := f.s2 + (f.s1 + source) }
      (jsAnd (copyStart + 1) 32767)

/-- `WriteLengthDistance`. -/
def WriteLengthDistance (f : Inflate) (length distance : Int) : Inflate :=
  let f1 := { f with lengthDecompressed := f.lengthDecompressed + length }
  let copyStart := jsAnd (f1.endPos - distance) 32767
  let border := 32768 - length
  if copyStart ≤ border ∧ f1.endPos < border then wldFastLoop length.toNat f1 copyStart
  else wldSlowLoop length.toNat f1 copyStart

/-- `DecodeUncompressedBlock`: skip to a byte boundary, read LEN and NLEN as
two `GetBits(8)` each, require `LEN == ~NLEN` (the unmasked 32-bit `~`),
set the pass-through count, return to ReadingFinalBit. -/
def DecodeUncompressedBlock (f : Inflate) : Except String (Bool × Inflate) := do
  let input := InputBuffer.SkipToByteBoundary f.input
  let (lo1, input) ← InputBuffer.GetBits 8 input
  let (hi1, input) ← InputBuffer.GetBits 8 input
  let lengthUncompressed := lo1 + hi1 * 256
  let (lo2, input) ← InputBuffer.GetBits 8 input
  let (hi2, input) ← InputBuffer.GetBits 8 input
  let blockLengthComplement := lo2 + hi2 * 256
  if lengthUncompressed ≠ jsNot blockLengthComplement then
    .error "InvalidBlockLength"
  else
    pure (true, { f with input, lengthUncompressed, state := 5 })

/-- The distance-offset computation of `DecodeBlock` for a decoded distance
code: for codes above 3, `extraBits = (code - 2) >> 1` and
`offset = s_distanceBasePosition[code] + GetBits(extraBits)`; no range check
is made, so codes 30 and 31 read the zero entries of the base table. -/
def decodeDistanceOffset (distanceCode : Int) (input : InputBuffer) :
    Except String (Int × InputBuffer) :=
  if distanceCode > 3 then
    match InputBuffer.GetBits (jsSar (distanceCode - 2) 1) input with
    | .error e => .error e
    | .ok (bits, input) => .ok (aget s_distanceBasePosition distanceCode + bits, input)
  else
    .ok (distanceCode + 1, input)

/-- The per-symbol loop of `DecodeBlock`, running while `freeBytes > 258`. -/
def DecodeBlockLoop : Nat → Inflate → Int → Except String (Bool × Inflate)
  | 0, _, _ => .error "OutOfFuel"
  | fuel + 1, f, freeBytes =>
    if freeBytes > 258 then
      match f.literalLengthTree with
      | none => .error "TypeError: GetNextSymbol of null"
      | some lt =>
        match HuffmanTree.GetNextSymbol lt f.input with
        | .error e => .error e
        | .ok (smbl, input) =>
          let f := { f with input }
          if smbl < 256 then
            DecodeBlockLoop fuel (Write f smbl) (freeBytes - 1)
          else if smbl = 256 then
            .ok (true, { f with state := 5, end_of_block_code_seen := true })
          else
            let smbl1 := smbl - 257
            match (if smbl1 < 8 then .ok (smbl1 + 3, 0)
                   else if smbl1 = 28 then .ok (258, 0)
                   else if smbl1 < 0 ∨ smbl1 ≥ (s_extraLengthBits.size : Int) then
                     .error "GenericInvalidData"
                   else .ok (smbl1, aget s_extraLengthBits smbl1) :
                   Except String (Int × Int)) with
            | .error e => .error e
            | .ok (smbl2, extraBits) =>
              match (if extraBits > 0 then
                       match InputBuffer.GetBits extraBits f.input with
                       | .error e => .error e
                       | .ok (bits, input) =>
                         if smbl2 < 0 ∨ smbl2 ≥ (s_lengthBase.size : Int) then
                           .error "GenericInvalidData"
                         else .ok (aget s_lengthBase smbl2 + bits, input)
                     else .ok (smbl2, f.input) : Except String (Int × InputBuffer)) with
              | .error e => .error e
              | .ok (length, input) =>
                let f := { f with input }
                match (if f.isDynamic then
                         match f.distanceTree with
                         | none => .error "TypeError: GetNextSymbol of null"
                         | some dt => HuffmanTree.GetNextSymbol dt f.input
                       else
                         match InputBuffer.GetBits 5 f.input with
                         | .error e => .error e
                         | .ok (dc, input) =>
                           .ok (if dc ≥ 0 then aget s_staticDistanceTreeTable dc else dc,
                                input) : Except String (Int × InputBuffer)) with
                | .error e => .error e
                | .ok (distanceCode, input) =>
                  let f := { f with input }
                  match decodeDistanceOffset distanceCode f.input with
                  | .error e => .error e
                  | .ok (offset, input) =>
                    let f := { f with input }
                    DecodeBlockLoop fuel (WriteLengthDistance f length offset)
                      (freeBytes - length)
    else
      .ok (true, { f with state := 4, end_of_block_code_seen := false })

/-- `DecodeBlock`. -/
def DecodeBlock (fuel : Nat) (f : Inflate) : Except String (Bool × Inflate) :=
  DecodeBlockLoop fuel f (32768 - f.lengthDecompressed)

/-- The HCLEN read loop of `DecodeDynamicBlockHeader`: 3-bit lengths stored
at positions `s_codeOrder[loopCounter]`. -/
def readCodeLengthCodes : Nat → Int → Int → JSArr → InputBuffer →
    Except String (JSArr × InputBuffer)
  | 0, _, _, arr, input => .ok (arr, input)
  | fuel + 1, loopCounter, codeLengthCodeCount, arr, input =>
    if loopCounter < codeLengthCodeCount then
      match InputBuffer.GetBits 3 input with
      | .error e => .error e
      | .ok (bits, input) =>
        readCodeLengthCodes fuel (loopCounter + 1) codeLengthCodeCount
          (jaSet arr (aget s_codeOrder loopCounter) bits) input
    else .ok (arr, input)

/-- The zero-fill loop for the remaining `s_codeOrder` positions. -/
def zeroCodeLengthCodes : Nat → Int → JSArr → JSArr
  | 0, _, arr => arr
  | fuel + 1, i, arr =>
    if i < (s_codeOrder.size : Int) then
      zeroCodeLengthCodes fuel (i + 1) (jaSet arr (aget s_codeOrder i) 0)
    else arr

/-- Zero / previous-code repeat fill of the `codeList` loop. -/
def fillCodeList : Nat → Int → Int → JSArr → JSArr
  | 0, _, _, a => a
  | n + 1, i, v, a => fillCodeList n (i + 1) v (jaSet a i v)

/-- The code-list loop of `DecodeDynamicBlockHeader`: decode HLIT + HDIST
code lengths through the code-length tree, with repeat codes 16, 17, 18. -/
def readCodeListLoop : Nat → Int → Int → JSArr → HuffmanTree → InputBuffer →
    Except String (JSArr × InputBuffer)
  | 0, _, _, _, _, _ => .error "OutOfFuel"
  | fuel + 1, loopCounter, codeArraySize, codeList, clTree, input =>
    if loopCounter < codeArraySize then
      match HuffmanTree.GetNextSymbol clTree input with
      | .error e => .error e
      | .ok (lengthCode, input) =>
        if lengthCode = 18 then
          match InputBuffer.GetBits 7 input with
          | .error e => .error e
          | .ok (bits, input) =>
            let repeatCount := bits + 11
            if loopCounter + repeatCount > codeArraySize then
              .error "Invalid Data Exception"
            else
              readCodeListLoop fuel (loopCounter + repeatCount) codeArraySize
                (fillCodeList repeatCount.toNat loopCounter 0 codeList) clTree input
        else if lengthCode = 17 then
          match InputBuffer.GetBits 3 input with
          | .error e => .error e
          | .ok (bits, input) =>
            let repeatCount := bits + 3
            if loopCounter + repeatCount > codeArraySize then
              .error "Invalid Data Exception"
            else
              readCodeListLoop fuel (loopCounter + repeatCount) codeArraySize
                (fillCodeList repeatCount.toNat loopCounter 0 codeList) clTree input
        else if lengthCode = 16 then
          if loopCounter = 0 then .error "Invalid Data Exception"
          else
            let previousCode := jaGet codeList (loopCounter - 1)
            match InputBuffer.GetBits 2 input with
            | .error e => .error e
            | .ok (bits, input) =>
              let repeatCount := bits + 3
              if loopCounter + repeatCount > codeArraySize then
                .error "Invalid Data Exception"
              else
                readCodeListLoop fuel (loopCounter + repeatCount) codeArraySize
                  (fillCodeList repeatCount.toNat loopCounter previousCode codeList)
                  clTree input
        else
          readCodeListLoop fuel (loopCounter + 1) codeArraySize
            (jaSet codeList loopCounter lengthCode) clTree input
    else .ok (codeList, input)

/-- `DecodeDynamicBlockHeader`. The 19-element plain array handed to the
`HuffmanTree` constructor, and the sliced-and-zero-padded literal and
distance length arrays, are materialized from the scratch arrays (every
read position was written by the loops above). -/
def DecodeDynamicBlockHeader (f : Inflate) : Except String Inflate := do
  let (a1, input) ← InputBuffer.GetBits 5 f.input
  let (a2, input) ← InputBuffer.GetBits 5 input
  let (a3, input) ← InputBuffer.GetBits 4 input
  let literalLengthCodeCount := a1 + 257
  let distanceCodeCount := a2 + 1
  let codeLengthCodeCount := a3 + 4
  let (cltcl, input) ←
    readCodeLengthCodes 19 0 codeLengthCodeCount f.codeLengthTreeCodeLength input
  let cltcl := zeroCodeLengthCodes 19 codeLengthCodeCount cltcl
  let clArr : Array Int := ((List.range 19).map (fun i => jaGet cltcl (i : Int))).toArray
  match HuffmanTree.new clArr with
  | .error e => .error e
  | .ok codeLengthTree =>
    let codeArraySize := literalLengthCodeCount + distanceCodeCount
    let (codeList, input) ← readCodeListLoop 320 0 codeArraySize f.codeList codeLengthTree input
    let literalTreeCodeLength : Array Int :=
      ((List.range 288).map (fun i =>
        if (i : Int) < literalLengthCodeCount then jaGet codeList (i : Int) else 0)).toArray
    let distanceTreeCodeLength : Array Int :=
      ((List.range 32).map (fun i =>
        if (i : Int) < distanceCodeCount then
          jaGet codeList (literalLengthCodeCount + (i : Int))
        else 0)).toArray
    if aget literalTreeCodeLength 256 = 0 then
      .error "Invalid Data Exception"
    else
      match HuffmanTree.new literalTreeCodeLength with
      | .error e => .error e
      | .ok litTree =>
        match HuffmanTree.new distanceTreeCodeLength with
        | .error e => .error e
        | .ok distTree =>
          pure { f with input
                        codeLengthTreeCodeLength := cltcl
                        codeList
                        literalLengthTree := some litTree
                        distanceTree := some distTree }

/-- The `while (true) switch (state)` dispatch of `Decode`; the recursion
models `continue`, and the ReadingFinalBit and ReadingDynamic cases fall
through into the following case as in the source. -/
def DecodeSwitch : Nat → Nat → Inflate → Except String (Bool × Inflate)
  | 0, _, _ => .error "OutOfFuel"
  | n + 1, fuelB, f =>
    if f.state = 5 then
      match InputBuffer.GetBits 1 f.input with
      | .error e => .error e
      | .ok (bf, input) =>
        match InputBuffer.GetBits 2 input with
        | .error e => .error e
        | .ok (ty, input) => DecodeSwitch n fuelB { f with bfinal := bf, state := ty, input }
    else if f.state = 6 then
      match InputBuffer.GetBits 2 f.input with
      | .error e => .error e
      | .ok (ty, input) => DecodeSwitch n fuelB { f with state := ty, input }
    else if f.state = 1 then
      match HuffmanTree.s_staticLiteralLengthTree, HuffmanTree.s_staticDistanceTree with
      | .ok lt, .ok dt =>
        DecodeSwitch n fuelB
          { f with literalLengthTree := some lt, distanceTree := some dt
                   isDynamic := false, state := 4 }
      | .error e, _ => .error e
      | _, .error e => .error e
    else if f.state = 2 then
      match DecodeDynamicBlockHeader f with
      | .error e => .error e
      | .ok f1 => DecodeBlock fuelB { f1 with isDynamic := true }
    else if f.state = 4 then DecodeBlock fuelB f
    else if f.state = 0 then
      match DecodeUncompressedBlock f with
      | .error e => .error e
      | .ok (r, f1) => .ok (r, { f1 with end_of_block_code_seen := true })
    else .error "Unknown Block Type"

/-- `Decode`: clear the end-of-block flag, dispatch, then transition to Done
when the final block just ended. -/
def Decode (fuelB : Nat) (f : Inflate) : Except String (Bool × Inflate) :=
  match DecodeSwitch 4 fuelB { f with end_of_block_code_seen := false } with
  | .error e => .error e
  | .ok (result, f) =>
    .ok (result,
         if f.end_of_block_code_seen ∧ f.bfinal ≠ 0 then { f with state := 7 } else f)

/-- The trailing-checksum loop of the ZLibInflate verification callback:
read up to four bytes big-endian (the loop runs at most four times, so a
fuel of 4 is exact). -/
def zlibVerifyLoop : Nat → Int → Int → JSIterator → Except String (Int × Int × JSIterator)
  | 0, need, byteSignificance, it => .ok (need, byteSignificance, it)
  | fuel + 1, need, byteSignificance, it =>
    if 0 < byteSignificance then
      match iterNext it with
      | .error e => .error e
      | .ok (none, it) => .ok (need, byteSignificance, it)
      | .ok (some v, it) =>
        let need :=
          if byteSignificance = 4 then jsAnd (jsShl (jsAnd v 255) 24) 0xff000000
          else if byteSignificance = 3 then need + jsAnd (jsShl (jsAnd v 255) 16) 0xff0000
          else if byteSignificance = 2 then need + jsAnd (jsShl (jsAnd v 255) 8) 0xff00
          else need + jsAnd (jsAnd v 255) 0xff
        zlibVerifyLoop fuel need (byteSignificance - 1) it
    else .ok (need, byteSignificance, it)

/-- The ZLibInflate verification callback: assemble the expected checksum
and compare it with the engine's value. -/
def zlibVerify (adler32 : Int) (it : JSIterator) : Except String JSIterator :=
  match zlibVerifyLoop 4 0 4 it with
  | .error e => .error e
  | .ok (need, _, it) =>
    if need ≠ adler32 then .error "Invalid Adler-32 checksum" else .ok it

/-- The epilogue of `next` once the do-while loop exits: run the
verification callback when present and return the done marker. -/
def NextFinish (f : Inflate) : Except String (Option Int × Inflate) :=
  if f.verifyAdler then
    match zlibVerify (jsOr (jsShl (Int.tmod f.s2 65521) 16) (Int.tmod f.s1 65521))
        f.input.iterator with
    | .error e => .error e
    | .ok it =>
      .ok (none, { f with current := -1, input := { f.input with iterator := it } })
  else .ok (none, { f with current := -1 })

/-- The do-while loop of `next`: serve a decompressed byte, else pass an
uncompressed byte through, else reduce the Adler accumulators and run one
`Decode` step while the state is not Done. -/
def NextLoop : Nat → Nat → Inflate → Except String (Option Int × Inflate)
  | 0, _, _ => .error "OutOfFuel"
  | n + 1, fuelB, f =>
    if 0 < f.lengthDecompressed then
      let current := jsAnd (f.endPos - f.lengthDecompressed) 32767
      .ok (some (jaGet f.window current),
        { f with current, lengthDecompressed := f.lengthDecompressed - 1 })
    else if 0 < f.lengthUncompressed then
      match iterNext f.input.iterator with
      | .error e => .error e
      | .ok (none, _) => .error "End Of Stream Exception"
      | .ok (some v, it) =>
        .ok (some v,
          { f with input := { f.input with iterator := it }
                   current := f.endPos
                   window := jaSet f.window f.endPos v
                   endPos := jsAnd (f.endPos + 1) 32767
                   lengthUncompressed := f.lengthUncompressed - 1
                   s1 := f.s1 + v
                   s2 := f.s2 + (f.s1 + v) })
    else
      let f := { f with s1 := Int.tmod f.s1 65521, s2 := Int.tmod f.s2 65521 }
      if f.state ≠ 7 then
        match Decode fuelB f with
        | .error e => .error e
        | .ok (true, f) => NextLoop n fuelB f
        | .ok (false, f) => NextFinish f
      else NextFinish f

/-- `Inflate.next`. -/
def next (fuel fuelB : Nat) (f : Inflate) : Except String (Option Int × Inflate) :=
  NextLoop fuel fuelB f

end Inflate

/-- The `FlateEnumerable` wrapper (src/flate-ts.ts lines 45-54): holds the
iteration target and the factory. -/
structure FlateEnumerable where
  target : List Int

/-- `asInflatable` (src/flate-ts.ts lines 27-30): throws on a null source,
otherwise wraps it in a `FlateEnumerable` whose factory builds an
`Inflate`. -/
def asInflatable (source : Option (List Int)) : Except String FlateEnumerable :=
  match source with
  | none => .error "No Inflate source specidied"
  | some s => .ok ⟨s⟩

/-- `FlateEnumerable[Symbol.iterator]` (src/flate-ts.ts lines 50-52): calls
the factory with `this._target[Symbol.iterator]` — the un-invoked method
VALUE, not the iterator it would produce — so the `Inflate` engine is
constructed over a function object. -/
def FlateEnumerable.symbolIterator (_e : FlateEnumerable) : Inflate :=
  Inflate.inflateNew .methodValue false

/-- `zlibInflate` (src/flate-ts.ts lines 39-41 and src/zlib-iterable.ts
lines 39-41): returns null for every argument. -/
def zlibInflate (_source : Option (List Int)) : Option (List Int) := none

/-- The exported names of src/flate-ts.ts (its `export function`
declarations). -/
def flateTsExports : List String := ["asInflatable", "zlibInflate"]

/-- The exported names of src/zlib-iterable.ts. -/
def zlibIterableExports : List String := ["asInflatable", "zlibInflate"]

/-- The `ZLibInflate` constructor (src/zlib-iterable.ts lines 60-113): pull
CMF and FLG, validate compression method, window size and header check, and
construct the engine with the Adler-verifying callback installed. No check
of the FDICT bit (bit 5 of FLG) is made. (`Inflate.endOfStreamEx` does not
exist on the `Inflate` class; that throw raises an undefined value.) -/
def ZLibInflateNew (data : List Int) : Except String Inflate :=
  match iterNext (.obj data) with
  | .error e => .error e
  | .ok (none, _) => .error "undefined (Inflate.endOfStreamEx)"
  | .ok (some cm, it) =>
    if jsAnd cm 0xf ≠ 8 then .error "unknown compression method"
    else if jsSar cm 4 + 8 > 0x0F then .error "invalid window size"
    else
      match iterNext it with
      | .error e => .error e
      | .ok (none, _) => .error "undefined (Inflate.endOfStreamEx)"
      | .ok (some flg, it) =>
        if Int.tmod (jsShl cm 8 + flg) 31 ≠ 0 then .error "incorrect header check"
        else .ok (Inflate.inflateNew it true)

/-- Whether a pull result is the thrown error `s`. -/
def isErr (x : Except String (Option Int × Inflate)) (s : String) : Bool :=
  match x with
  | .error e => e == s
  | .ok _ => false

/-- The code-length vector of the worked example: a dynamic header whose
code-length alphabet assigns symbol 0 the length 8 and all others zero. -/
def c3_codeLengths : Array Int := #[8, 0, 0, 0, 0, 0, 0, 0, 0, 0, 0, 0, 0, 0, 0, 0, 0, 0, 0]

/-- Table entry of a constructed tree (or `-1` if construction failed). -/
def treeTableEntry (r : Except String HuffmanTree) (i : Int) : Int :=
  match r with
  | .ok t => u8get t.table i
  | .error _ => -1

/-- `_tableBits` of a constructed tree (or `-1` if construction failed). -/
def treeTableBits (r : Except String HuffmanTree) : Int :=
  match r with
  | .ok t => t.tableBits
  | .error _ => -1

/-- The operations the decoder performs on its `InputBuffer`. -/
inductive BufOp where
  | tryGet (n : Int)
  | get (n : Int)
  | skip (n : Int)
  | toByteBoundary
deriving DecidableEq, Repr

/-- Run a sequence of buffer operations, discarding the values read. -/
def runOps : List BufOp → InputBuffer → Except String InputBuffer
  | [], b => .ok b
  | .tryGet n :: ops, b =>
    match InputBuffer.TryGetBits n b with
    | .error e => .error e
    | .ok (_, b) => runOps ops b
  | .get n :: ops, b =>
    match InputBuffer.GetBits n b with
    | .error e => .error e
    | .ok (_, b) => runOps ops b
  | .skip n :: ops, b => runOps ops (InputBuffer.SkipBits n b)
  | .toByteBoundary :: ops, b => runOps ops (InputBuffer.SkipToByteBoundary b)

/-- Well-formedness of the buffer state: the bit count lies in `0..=23` (in
particular in `0..=32`), the staging register is nonnegative with every bit
at or above the count clear, and the producer is an iterator object yielding
bytes. -/
def GoodBuf (b : InputBuffer) : Prop :=
  0 ≤ b.bitsInBuffer ∧ b.bitsInBuffer ≤ 23 ∧
  0 ≤ b.bitBuffer ∧ b.bitBuffer < 2 ^ b.bitsInBuffer.toNat ∧
  ∃ l, b.iterator = .obj l ∧ ∀ x ∈ l, 0 ≤ x ∧ x < 256

/-- Operation sequences within the decoder's usage of the buffer: reads ask
for 1 to 16 bits and either find them already buffered or have at least two
bytes pending, and skips stay within the buffered count. -/
inductive SafeOps : InputBuffer → List BufOp → Prop where
  | nil (b : InputBuffer) : SafeOps b []
  | tryGet (b : InputBuffer) (ops : List BufOp) (n v : Int) (b2 : InputBuffer) :
      1 ≤ n → n ≤ 16 → (n ≤ b.bitsInBuffer ∨ 2 ≤ iterLen b.iterator) →
      InputBuffer.TryGetBits n b = .ok (v, b2) → SafeOps b2 ops →
      SafeOps b (.tryGet n :: ops)
  | get (b : InputBuffer) (ops : List BufOp) (n v : Int) (b2 : InputBuffer) :
      1 ≤ n → n ≤ 16 → (n ≤ b.bitsInBuffer ∨ 2 ≤ iterLen b.iterator) →
      InputBuffer.GetBits n b = .ok (v, b2) → SafeOps b2 ops →
      SafeOps b (.get n :: ops)
  | skip (b : InputBuffer) (ops : List BufOp) (n : Int) :
      0 ≤ n → n ≤ b.bitsInBuffer →
      SafeOps (InputBuffer.SkipBits n b) ops → SafeOps b (.skip n :: ops)
  | toByteBoundary (b : InputBuffer) (ops : List BufOp) :
      SafeOps (InputBuffer.SkipToByteBoundary b) ops →
      SafeOps b (.toByteBoundary :: ops)

/-- Reversal of the low `n` bits of `x` as plain arithmetic: the
least-significant bit of `x` lands at position `n - 1` of the result. -/
def cleanRev : Nat → Nat → Nat
  | 0, _ => 0
  | n + 1, x => 2 ^ n * (x % 2) + cleanRev n (x / 2)

-- ## Certification and sanity theorems (definitions end above this line).

-- Sanity checks of the embedding on concrete values.
example : iterNext (.obj [1, 2]) = .ok (some 1, .obj [2]) := rfl
example : jsNot 65534 = -65535 := by decide
example : Int.emod (-19) 256 = 237 := by decide
example : jsShl 1 32 = 1 := by decide
example : jsSar (-8) 1 = -4 := by decide
example : InputBuffer.GetBits 1 ⟨0, 0, .obj []⟩ = .ok (0, ⟨0, -1, .obj []⟩) := by decide
example : InputBuffer.GetBits 32 ⟨31, 5, .obj []⟩ = .ok (0, ⟨31, -27, .obj []⟩) := by decide

/-- Splitting an `iterLoop` run into two consecutive runs. -/
theorem iterLoop_add {σ : Type _} (step : Nat → σ → σ) (m n k : Nat) (s : σ) :
    iterLoop step (m + n) k s = iterLoop step n (k + m) (iterLoop step m k s) := by
  induction m generalizing k s with
  | zero => simp [iterLoop]
  | succ m ih =>
      have h1 : m + 1 + n = (m + n) + 1 := by omega
      rw [h1, iterLoop, iterLoop, ih]
      have h2 : k + 1 + m = k + (m + 1) := by omega
      rw [h2]

/-- Splitting an `iterLoopE` run into two consecutive runs. -/
theorem iterLoopE_add {σ : Type _} (step : Nat → σ → Except String σ) (m n k : Nat) (s : σ) :
    iterLoopE step (m + n) k s = (iterLoopE step m k s).bind (iterLoopE step n (k + m)) := by
  induction m generalizing k s with
  | zero => simp [iterLoopE, Except.bind]
  | succ m ih =>
      have h1 : m + 1 + n = (m + n) + 1 := by omega
      rw [h1, iterLoopE, iterLoopE]
      cases hstep : step k s with
      | error e => simp [Except.bind]
      | ok s1 =>
          simp only []
          rw [ih]
          have h2 : k + 1 + m = k + (m + 1) := by omega
          rw [h2]

namespace HuffmanTree

theorem litBlcChunk1 : iterLoop blcStep 96 0 (mkU8 17) = ⟨17, litBlc1v⟩ := by decide

theorem litBlcChunk2 : iterLoop blcStep 96 96 (⟨17, litBlc1v⟩ : U8Array) = ⟨17, litBlc1v⟩ := by
  decide

theorem litBlcChunk3 : iterLoop blcStep 96 192 (⟨17, litBlc1v⟩ : U8Array) = ⟨17, litBlc1v⟩ := by
  decide

/-- The `bitLengthCount` array for the static literal tree: one count per
KEY 0..16 (the `for..in` bug), with slot 0 cleared. -/
theorem litBlcOf : bitLengthCountOf GetStaticLiteralTreeLength = ⟨17, litBlcFv⟩ := by
  have a1 : iterLoop blcStep 288 0 (mkU8 17) =
      iterLoop blcStep 192 96 (iterLoop blcStep 96 0 (mkU8 17)) :=
    iterLoop_add blcStep 96 192 0 (mkU8 17)
  have a2 : iterLoop blcStep 192 96 (⟨17, litBlc1v⟩ : U8Array) =
      iterLoop blcStep 96 192 (iterLoop blcStep 96 96 (⟨17, litBlc1v⟩ : U8Array)) :=
    iterLoop_add blcStep 96 96 96 (⟨17, litBlc1v⟩ : U8Array)
  have main : iterLoop blcStep 288 0 (mkU8 17) = ⟨17, litBlc1v⟩ :=
    ((a1.trans (congrArg (iterLoop blcStep 192 96) litBlcChunk1)).trans a2).trans
      ((congrArg (iterLoop blcStep 96 192) litBlcChunk2).trans litBlcChunk3)
  have fin : u8set (⟨17, litBlc1v⟩ : U8Array) 0 0 = ⟨17, litBlcFv⟩ := by decide
  exact (congrArg (fun x => u8set x 0 0) main).trans fin

theorem litNextCodeEval :
    (iterLoop (nextCodeStep (⟨17, litBlcFv⟩ : U8Array)) 16 1 (mkU8 17, (0 : Int))).1 =
      ⟨17, litNCv⟩ := by decide

/-- The `nextCode` array for the static literal tree. -/
theorem litNextCodeOf : nextCodeOf GetStaticLiteralTreeLength = ⟨17, litNCv⟩ :=
  (congrArg (fun b => (iterLoop (nextCodeStep b) 16 1 (mkU8 17, (0 : Int))).1)
    litBlcOf).trans litNextCodeEval

theorem litCodeChunk1 :
    iterLoop litCodeStep 96 0 (mkU8 288, (⟨17, litNCv⟩ : U8Array)) =
      ((⟨288, litCode1v⟩ : U8Array), (⟨17, litNC1v⟩ : U8Array)) := by decide

theorem litCodeChunk2 :
    iterLoop litCodeStep 96 96 ((⟨288, litCode1v⟩ : U8Array), (⟨17, litNC1v⟩ : U8Array)) =
      ((⟨288, litCode2v⟩ : U8Array), (⟨17, litNC2v⟩ : U8Array)) := by decide

theorem litCodeChunk3 :
    iterLoop litCodeStep 96 192 ((⟨288, litCode2v⟩ : U8Array), (⟨17, litNC2v⟩ : U8Array)) =
      ((⟨288, litCode3v⟩ : U8Array), (⟨17, litNC3v⟩ : U8Array)) := by decide

/-- The code array of the static literal tree. -/
theorem litCalc : CalculateHuffmanCode GetStaticLiteralTreeLength = ⟨288, litCode3v⟩ := by
  have a1 : iterLoop litCodeStep 288 0 (mkU8 288, (⟨17, litNCv⟩ : U8Array)) =
      iterLoop litCodeStep 192 96
        (iterLoop litCodeStep 96 0 (mkU8 288, (⟨17, litNCv⟩ : U8Array))) :=
    iterLoop_add litCodeStep 96 192 0 (mkU8 288, (⟨17, litNCv⟩ : U8Array))
  have a2 : iterLoop litCodeStep 192 96
        ((⟨288, litCode1v⟩ : U8Array), (⟨17, litNC1v⟩ : U8Array)) =
      iterLoop litCodeStep 96 192 (iterLoop litCodeStep 96 96
        ((⟨288, litCode1v⟩ : U8Array), (⟨17, litNC1v⟩ : U8Array))) :=
    iterLoop_add litCodeStep 96 96 96 _
  have main : iterLoop litCodeStep 288 0 (mkU8 288, (⟨17, litNCv⟩ : U8Array)) =
      ((⟨288, litCode3v⟩ : U8Array), (⟨17, litNC3v⟩ : U8Array)) :=
    ((a1.trans (congrArg (iterLoop litCodeStep 192 96) litCodeChunk1)).trans a2).trans
      ((congrArg (iterLoop litCodeStep 96 192) litCodeChunk2).trans litCodeChunk3)
  exact (congrArg (fun nc => (iterLoop litCodeStep 288 0 (mkU8 288, nc)).1)
    litNextCodeOf).trans (congrArg Prod.fst main)

theorem litInsChunk1 : iterLoopE litInsStep 96 0 litInit = .ok litT1 := by decide

theorem litInsChunk2 : iterLoopE litInsStep 96 96 litT1 = .ok litT2 := by decide

theorem litInsChunk3 : iterLoopE litInsStep 96 192 litT2 = .ok litT3 := by decide

/-- `CreateTable` output for the static literal tree. -/
theorem litCreate : CreateTable 9 GetStaticLiteralTreeLength = .ok litT3 := by
  have a1 : iterLoopE litInsStep 288 0 litInit =
      (iterLoopE litInsStep 96 0 litInit).bind (iterLoopE litInsStep 192 96) :=
    iterLoopE_add litInsStep 96 192 0 litInit
  have b1 : (Except.ok litT1).bind (iterLoopE litInsStep 192 96) =
      iterLoopE litInsStep 192 96 litT1 := rfl
  have a2 : iterLoopE litInsStep 192 96 litT1 =
      (iterLoopE litInsStep 96 96 litT1).bind (iterLoopE litInsStep 96 192) :=
    iterLoopE_add litInsStep 96 96 96 litT1
  have b2 : (Except.ok litT2).bind (iterLoopE litInsStep 96 192) =
      iterLoopE litInsStep 96 192 litT2 := rfl
  have main : iterLoopE litInsStep 288 0 litInit = .ok litT3 :=
    (((((a1.trans (congrArg (fun x => Except.bind x (iterLoopE litInsStep 192 96))
      litInsChunk1)).trans b1).trans a2).trans
      (congrArg (fun x => Except.bind x (iterLoopE litInsStep 96 192))
        litInsChunk2)).trans b2).trans litInsChunk3
  exact (congrArg (fun ca => iterLoopE (insertStep 9 GetStaticLiteralTreeLength ca) 288 0 litInit)
    litCalc).trans main

theorem litMaxChunk1 : iterLoop maxStep 96 0 0 = 95 := by decide

theorem litMaxChunk2 : iterLoop maxStep 96 96 95 = 191 := by decide

theorem litMaxChunk3 : iterLoop maxStep 96 192 191 = 287 := by decide

/-- The (mis-)computed `_maxCodeLength` of the static literal tree: the
largest ARRAY INDEX, 287. -/
theorem litMaxOf : maxCodeLengthOf GetStaticLiteralTreeLength = 287 := by
  have a1 : iterLoop maxStep 288 0 0 =
      iterLoop maxStep 192 96 (iterLoop maxStep 96 0 0) :=
    iterLoop_add maxStep 96 192 0 0
  have a2 : iterLoop maxStep 192 96 (95 : Int) =
      iterLoop maxStep 96 192 (iterLoop maxStep 96 96 (95 : Int)) :=
    iterLoop_add maxStep 96 96 96 (95 : Int)
  exact ((a1.trans (congrArg (iterLoop maxStep 192 96) litMaxChunk1)).trans a2).trans
    ((congrArg (iterLoop maxStep 96 192) litMaxChunk2).trans litMaxChunk3)

/-- Certification that the singleton value is exactly what the embedded
constructor produces on the static literal code lengths. -/
theorem s_staticLiteralLengthTree_spec :
    new GetStaticLiteralTreeLength = s_staticLiteralLengthTree := by
  have hs : GetStaticLiteralTreeLength.size = 288 := by decide
  unfold new
  rw [hs]
  simp only [reduceIte]
  rw [litCreate, litMaxOf]
  rfl

/-- Certification that the distance singleton is what the embedded
constructor produces on the static distance code lengths. -/
theorem s_staticDistanceTree_spec :
    new GetStaticDistanceTreeLength = s_staticDistanceTree := by decide

end HuffmanTree

-- ## Supporting lemmas for the claim theorems

-- ## Arithmetic facts about the JavaScript operators

/-- `Int.emod` is the `%` of the ambient order (definitional). -/
theorem int_emod_eq (a b : Int) : a.emod b = a % b := rfl

/-- `toInt32` with the `let` unfolded, in `%` form. -/
theorem toInt32_eq (n : Int) :
    toInt32 n = if n % 4294967296 < 2147483648
      then n % 4294967296 else n % 4294967296 - 4294967296 := rfl

/-- `u32` in `%` form. -/
theorem u32_eq (n : Int) : u32 n = (n % 4294967296).toNat := rfl

/-- `ToInt32` is the identity on `0 ≤ n < 2^31`. -/
theorem toInt32_small (n : Int) (h0 : 0 ≤ n) (h : n < 2147483648) : toInt32 n = n := by
  rw [toInt32_eq]
  have h1 : n % 4294967296 = n := Int.emod_eq_of_lt h0 (by omega)
  rw [h1, if_pos h]

/-- `ToInt32` preserves the residue mod `2^32`. -/
theorem toInt32_emod (n : Int) :
    (toInt32 n) % 4294967296 = n % 4294967296 := by
  rw [toInt32_eq]
  split
  · exact Int.emod_emod_of_dvd n dvd_rfl
  · rw [Int.sub_emod, Int.emod_emod_of_dvd n dvd_rfl, Int.emod_self, sub_zero,
      Int.emod_emod_of_dvd n dvd_rfl]

/-- `ToUint32` as a cast, on `0 ≤ n < 2^32`. -/
theorem u32_small (n : Int) (h0 : 0 ≤ n) (h : n < 4294967296) : u32 n = n.toNat := by
  rw [u32_eq]
  omega

/-- JavaScript `a << s` is plain multiplication while the result stays below
`2^31`. -/
theorem jsShl_small (a s : Int) (ha0 : 0 ≤ a) (hs0 : 0 ≤ s) (hs : s < 32)
    (hbound : a * 2 ^ s.toNat < 2147483648) :
    jsShl a s = a * 2 ^ s.toNat := by
  have hp : (0:Int) < 2 ^ s.toNat := pow_pos (by norm_num) _
  have ha32 : a < 4294967296 := by nlinarith
  unfold jsShl
  rw [int_emod_eq, Int.emod_eq_of_lt hs0 hs, u32_small a ha0 ha32,
    Int.toNat_of_nonneg ha0]
  exact toInt32_small _ (mul_nonneg ha0 (le_of_lt hp)) hbound

/-- JavaScript `a | b` is `Nat.lor` while both operands stay below `2^31`. -/
theorem jsOr_small (a b : Int) (ha0 : 0 ≤ a) (hb0 : 0 ≤ b)
    (ha : a < 2147483648) (hb : b < 2147483648) :
    jsOr a b = ((Nat.lor a.toNat b.toNat : Nat) : Int) := by
  unfold jsOr
  rw [u32_small a ha0 (by omega), u32_small b hb0 (by omega)]
  refine toInt32_small _ (Int.natCast_nonneg _) ?_
  have h1 : a.toNat < 2 ^ 31 := by omega
  have h2 : b.toNat < 2 ^ 31 := by omega
  have h3 : Nat.lor a.toNat b.toNat < 2 ^ 31 := Nat.or_lt_two_pow h1 h2
  omega

/-- JavaScript `a >> s` is Euclidean division by `2^s` for small nonnegative
operands. -/
theorem jsSar_small (a s : Int) (ha0 : 0 ≤ a) (ha : a < 2147483648)
    (hs0 : 0 ≤ s) (hs : s < 32) :
    jsSar a s = a / 2 ^ s.toNat := by
  unfold jsSar
  rw [int_emod_eq, Int.emod_eq_of_lt hs0 hs, toInt32_small a ha0 ha]

/-- JavaScript `a & 1` extracts the parity of a small nonnegative operand. -/
theorem jsAnd_one (a : Int) (ha0 : 0 ≤ a) (ha : a < 4294967296) :
    jsAnd a 1 = ((a.toNat % 2 : Nat) : Int) := by
  unfold jsAnd
  rw [u32_small a ha0 ha, show u32 1 = Int.toNat 1 from rfl]
  have h1 : Nat.land a.toNat (Int.toNat 1) = a.toNat % 2 := Nat.and_one_is_mod a.toNat
  rw [h1]
  exact toInt32_small _ (Int.natCast_nonneg _) (by omega)

/-- The mask `(1 << n) - 1` reduced mod `2^32`, for `1 ≤ n ≤ 31`: the low-`n`
ones pattern (also when `1 << 31` wraps negative). -/
theorem u32_mask (n : Int) (h1 : 1 ≤ n) (h2 : n ≤ 31) :
    u32 (jsShl 1 n - 1) = 2 ^ n.toNat - 1 := by
  have hk : (2:Int) ^ n.toNat ≤ 2 ^ 31 := pow_le_pow_right₀ (by norm_num) (by omega)
  have hk1 : (1:Int) ≤ 2 ^ n.toNat := one_le_pow₀ (by norm_num)
  have hshl : jsShl 1 n = toInt32 (2 ^ n.toNat) := by
    unfold jsShl
    rw [int_emod_eq, Int.emod_eq_of_lt (by omega) (by omega),
      show u32 1 = 1 from rfl]
    norm_num
  rw [hshl]
  have hmod : (toInt32 (2 ^ n.toNat) - 1) % 4294967296 = 2 ^ n.toNat - 1 := by
    rw [Int.sub_emod, toInt32_emod, ← Int.sub_emod]
    exact Int.emod_eq_of_lt (by omega) (by omega)
  rw [u32_eq, hmod]
  have hpc : ((2:Int)) ^ n.toNat = ((2 ^ n.toNat : Nat) : Int) := by push_cast; ring
  rw [hpc]
  have hn1 : (1:Nat) ≤ 2 ^ n.toNat := Nat.one_le_two_pow
  omega

/-- JavaScript `a & ((1 << n) - 1)` keeps the low `n` bits of the unsigned
pattern of `a`, for `1 ≤ n ≤ 31`. -/
theorem jsAnd_mask (x n : Int) (h1 : 1 ≤ n) (h2 : n ≤ 31) :
    jsAnd x (jsShl 1 n - 1) = ((u32 x % 2 ^ n.toNat : Nat) : Int) := by
  unfold jsAnd
  rw [u32_mask n h1 h2]
  have hland : Nat.land (u32 x) (2 ^ n.toNat - 1) = u32 x % 2 ^ n.toNat :=
    Nat.and_pow_two_sub_one_eq_mod (u32 x) n.toNat
  rw [hland]
  refine toInt32_small _ (Int.natCast_nonneg _) ?_
  have hlt : u32 x % 2 ^ n.toNat < 2 ^ n.toNat := Nat.mod_lt _ (Nat.pos_pow_of_pos _ (by norm_num))
  have hkn : (2:Nat) ^ n.toNat ≤ 2 ^ 31 := Nat.pow_le_pow_right (by norm_num) (by omega)
  have hcast : ((u32 x % 2 ^ n.toNat : Nat) : Int) < ((2 ^ 31 : Nat) : Int) := by
    exact_mod_cast lt_of_lt_of_le hlt hkn
  omega

-- ## Preservation of buffer well-formedness (C4)

/-- Casting a `Nat` power of two to `Int`. -/
theorem int_pow_cast (k : Nat) : ((2 ^ k : Nat) : Int) = (2:Int) ^ k := by
  push_cast
  ring

/-- One byte OR-ed in at the current count: the register stays nonnegative and
below `2^(count+8)`. -/
theorem fill_step (bb cnt v : Int) (hb0 : 0 ≤ bb) (hbb : bb < 2 ^ cnt.toNat)
    (hc0 : 0 ≤ cnt) (hc : cnt ≤ 15) (hv0 : 0 ≤ v) (hv : v < 256) :
    0 ≤ jsOr bb (jsShl v cnt) ∧ jsOr bb (jsShl v cnt) < 2 ^ (cnt + 8).toNat := by
  have hcpow : (2:Int) ^ cnt.toNat ≤ 2 ^ 15 := pow_le_pow_right₀ (by norm_num) (by omega)
  have hcpow0 : (0:Int) < 2 ^ cnt.toNat := pow_pos (by norm_num) _
  have hshl : jsShl v cnt = v * 2 ^ cnt.toNat :=
    jsShl_small v cnt hv0 hc0 (by omega) (by nlinarith)
  rw [hshl]
  have hmul0 : 0 ≤ v * 2 ^ cnt.toNat := mul_nonneg hv0 (le_of_lt hcpow0)
  have hmul : v * 2 ^ cnt.toNat < 2147483648 := by nlinarith
  have hor : jsOr bb (v * 2 ^ cnt.toNat) =
      ((Nat.lor bb.toNat (v * 2 ^ cnt.toNat).toNat : Nat) : Int) :=
    jsOr_small _ _ hb0 hmul0 (by nlinarith) hmul
  rw [hor]
  refine ⟨Int.natCast_nonneg _, ?_⟩
  have hbbn : bb.toNat < 2 ^ (cnt.toNat + 8) := by
    have h1 : (2:Nat) ^ cnt.toNat ≤ 2 ^ (cnt.toNat + 8) :=
      Nat.pow_le_pow_right (by norm_num) (by omega)
    have h2 : bb < ((2 ^ cnt.toNat : Nat) : Int) := by rw [int_pow_cast]; exact hbb
    omega
  have hvn : (v * 2 ^ cnt.toNat).toNat < 2 ^ (cnt.toNat + 8) := by
    have h256 : v * 2 ^ cnt.toNat < 256 * 2 ^ cnt.toNat :=
      mul_lt_mul_of_pos_right hv hcpow0
    have hcast : ((2 ^ (cnt.toNat + 8) : Nat) : Int) = 256 * 2 ^ cnt.toNat := by
      rw [int_pow_cast, pow_add]
      ring
    omega
  have hlorlt : Nat.lor bb.toNat (v * 2 ^ cnt.toNat).toNat < 2 ^ (cnt.toNat + 8) :=
    Nat.or_lt_two_pow hbbn hvn
  have hexp : (cnt + 8).toNat = cnt.toNat + 8 := by omega
  rw [hexp, ← int_pow_cast]
  exact_mod_cast hlorlt

/-- Shifting the register right by `n ≤ count` bits: nonnegativity and the
bound `2^(count-n)` are preserved. -/
theorem skip_components (bb cnt n : Int) (h0 : 0 ≤ n) (hn : n ≤ cnt) (hc23 : cnt ≤ 23)
    (hb0 : 0 ≤ bb) (hbb : bb < 2 ^ cnt.toNat) :
    0 ≤ jsSar bb n ∧ jsSar bb n < 2 ^ (cnt - n).toNat := by
  have hcpow : (2:Int) ^ cnt.toNat ≤ 2 ^ 23 := pow_le_pow_right₀ (by norm_num) (by omega)
  have hs : jsSar bb n = bb / 2 ^ n.toNat := jsSar_small bb n hb0 (by omega) h0 (by omega)
  rw [hs]
  have hp : (0:Int) < 2 ^ n.toNat := pow_pos (by norm_num) _
  refine ⟨Int.ediv_nonneg hb0 (le_of_lt hp), ?_⟩
  rw [Int.ediv_lt_iff_lt_mul hp]
  have hsplit : (2:Int) ^ (cnt - n).toNat * 2 ^ n.toNat = 2 ^ cnt.toNat := by
    rw [← pow_add]
    congr 1
    omega
  rw [hsplit]
  exact hbb

example (b : InputBuffer) (l : List Int) (h : b.iterator = .obj l) : True := by
  obtain ⟨bb, cnt, it⟩ := b
  change it = JSIterator.obj l at h
  subst h
  trivial

/-- Introduction form of `GoodBuf` on explicit components. -/
theorem goodBuf_mk (bb cnt : Int) (l : List Int) (h0 : 0 ≤ cnt) (h23 : cnt ≤ 23)
    (hb0 : 0 ≤ bb) (hbb : bb < 2 ^ cnt.toNat) (hby : ∀ x ∈ l, 0 ≤ x ∧ x < 256) :
    GoodBuf ⟨bb, cnt, .obj l⟩ :=
  ⟨h0, h23, hb0, hbb, l, rfl, hby⟩

/-- `TryGetBits` on a well-formed buffer, for a request of 1..16 bits that is
either already buffered or backed by at least two pending bytes: it succeeds,
preserves well-formedness, and leaves at least `n` bits buffered. -/
theorem TryGetBits_good (n : Int) (b : InputBuffer) (h1 : 1 ≤ n) (h2 : n ≤ 16)
    (h3 : n ≤ b.bitsInBuffer ∨ 2 ≤ iterLen b.iterator) (hg : GoodBuf b) :
    ∃ v b2, InputBuffer.TryGetBits n b = .ok (v, b2) ∧ GoodBuf b2 ∧ n ≤ b2.bitsInBuffer := by
  obtain ⟨hc0, hc23, hb0, hbb, l, hit, hby⟩ := hg
  obtain ⟨bb, cnt, it⟩ := b
  change it = JSIterator.obj l at hit
  subst hit
  change 0 ≤ cnt at hc0
  change cnt ≤ 23 at hc23
  change 0 ≤ bb at hb0
  change bb < 2 ^ cnt.toNat at hbb
  change n ≤ cnt ∨ 2 ≤ l.length at h3
  by_cases hlt : cnt < n
  · have hlen : 2 ≤ l.length := by
      rcases h3 with h | h
      · omega
      · exact h
    cases l with
    | nil => simp at hlen
    | cons x t =>
      cases t with
      | nil => simp at hlen
      | cons y l' =>
        have hx := hby x (by simp)
        have hy := hby y (by simp)
        have hby' : ∀ z ∈ l', 0 ≤ z ∧ z < 256 := fun z hz => hby z (by simp [hz])
        have hby2 : ∀ z ∈ y :: l', 0 ≤ z ∧ z < 256 := fun z hz => hby z (by simp [hz])
        obtain ⟨hf10, hf1b⟩ := fill_step bb cnt x hb0 hbb hc0 (by omega) hx.1 hx.2
        by_cases hlt2 : cnt + 8 < n
        · obtain ⟨hf20, hf2b⟩ := fill_step (jsOr bb (jsShl x cnt)) (cnt + 8) y
            hf10 hf1b (by omega) (by omega) hy.1 hy.2
          refine ⟨jsOr (jsOr bb (jsShl x cnt)) (jsShl y (cnt + 8)),
            ⟨jsOr (jsOr bb (jsShl x cnt)) (jsShl y (cnt + 8)), cnt + 8 + 8, .obj l'⟩,
            ?_, goodBuf_mk _ _ _ (by omega) (by omega) hf20 hf2b hby',
            show n ≤ cnt + 8 + 8 by omega⟩
          unfold InputBuffer.TryGetBits
          rw [if_pos hlt]
          dsimp only [iterNext]
          rw [if_pos hlt2]
        · refine ⟨jsOr bb (jsShl x cnt),
            ⟨jsOr bb (jsShl x cnt), cnt + 8, .obj (y :: l')⟩,
            ?_, goodBuf_mk _ _ _ (by omega) (by omega) hf10 hf1b hby2,
            show n ≤ cnt + 8 by omega⟩
          unfold InputBuffer.TryGetBits
          rw [if_pos hlt]
          dsimp only [iterNext]
          rw [if_neg hlt2]
  · refine ⟨bb, ⟨bb, cnt, .obj l⟩, ?_, goodBuf_mk _ _ _ hc0 hc23 hb0 hbb hby,
      show n ≤ cnt by omega⟩
    unfold InputBuffer.TryGetBits
    rw [if_neg hlt]

/-- `GetBits` under the same preconditions: succeeds and preserves
well-formedness (the count never goes negative). -/
theorem GetBits_good (n : Int) (b : InputBuffer) (h1 : 1 ≤ n) (h2 : n ≤ 16)
    (h3 : n ≤ b.bitsInBuffer ∨ 2 ≤ iterLen b.iterator) (hg : GoodBuf b) :
    ∃ v b2, InputBuffer.GetBits n b = .ok (v, b2) ∧ GoodBuf b2 := by
  obtain ⟨v, b1, heq, hg1, hle⟩ := TryGetBits_good n b h1 h2 h3 hg
  obtain ⟨hc0, hc23, hb0, hbb, l, hit, hby⟩ := hg1
  obtain ⟨hs0, hsb⟩ := skip_components b1.bitBuffer b1.bitsInBuffer n (by omega) hle hc23 hb0 hbb
  refine ⟨jsAnd b1.bitBuffer (jsShl 1 n - 1),
    ⟨jsSar b1.bitBuffer n, b1.bitsInBuffer - n, .obj l⟩, ?_,
    goodBuf_mk _ _ _ (by omega) (by omega) hs0 hsb hby⟩
  unfold InputBuffer.GetBits
  rw [heq]
  show Except.ok (jsAnd b1.bitBuffer (jsShl 1 n - 1),
    (⟨jsSar b1.bitBuffer n, b1.bitsInBuffer - n, b1.iterator⟩ : InputBuffer)) = _
  rw [hit]

/-- `SkipBits` within the buffered count preserves well-formedness. -/
theorem SkipBits_good (n : Int) (b : InputBuffer) (h0 : 0 ≤ n) (hn : n ≤ b.bitsInBuffer)
    (hg : GoodBuf b) : GoodBuf (InputBuffer.SkipBits n b) := by
  obtain ⟨hc0, hc23, hb0, hbb, l, hit, hby⟩ := hg
  obtain ⟨hs0, hsb⟩ := skip_components b.bitBuffer b.bitsInBuffer n h0 hn hc23 hb0 hbb
  have hrw : InputBuffer.SkipBits n b =
      ⟨jsSar b.bitBuffer n, b.bitsInBuffer - n, .obj l⟩ := by
    unfold InputBuffer.SkipBits
    rw [hit]
  rw [hrw]
  exact goodBuf_mk _ _ _ (by omega) (by omega) hs0 hsb hby

/-- `SkipToByteBoundary` preserves well-formedness. -/
theorem SkipToByteBoundary_good (b : InputBuffer) (hg : GoodBuf b) :
    GoodBuf (InputBuffer.SkipToByteBoundary b) := by
  obtain ⟨hc0, hc23, hb0, hbb, l, hit, hby⟩ := hg
  have htm : Int.tmod b.bitsInBuffer 8 = b.bitsInBuffer % 8 :=
    Int.tmod_eq_emod hc0 (by norm_num)
  have hr0 : 0 ≤ b.bitsInBuffer % 8 := by omega
  have hrn : b.bitsInBuffer % 8 ≤ b.bitsInBuffer := by omega
  obtain ⟨hs0, hsb⟩ :=
    skip_components b.bitBuffer b.bitsInBuffer (b.bitsInBuffer % 8) hr0 hrn hc23 hb0 hbb
  have hrw : InputBuffer.SkipToByteBoundary b =
      ⟨jsSar b.bitBuffer (b.bitsInBuffer % 8), b.bitsInBuffer - b.bitsInBuffer % 8, .obj l⟩ := by
    unfold InputBuffer.SkipToByteBoundary
    rw [htm, hit]
  rw [hrw]
  exact goodBuf_mk _ _ _ (by omega) (by omega) hs0 hsb hby

/-- C4 (amended): for every sequence of operations the decoder performs on
an `InputBuffer` (`TryGetBits`, `GetBits`, `SkipBits`, `SkipToByteBoundary`)
within its usage pattern — reads of 1..16 bits that are either already
buffered or backed by at least two pending bytes, skips within the buffered
count — starting from a well-formed buffer, every operation succeeds and
well-formedness is preserved: the count of buffered bits stays in `0..=23`
(hence in `0..=32`), the staging register is nonnegative with all bits at or
above the count zero, and each fill ORs the new byte in shifted left by the
current count, which therefore never reaches 24 or more. The claim's
original unconditional form (over any byte producer and any requests) is
refuted by `c4_counterexample`: one read past an exhausted producer drives
the count negative. -/
theorem c4_buffer_ops_preserve_invariant (b : InputBuffer) (ops : List BufOp)
    (hs : SafeOps b ops) (hg : GoodBuf b) :
    ∃ b2, runOps ops b = .ok b2 ∧ GoodBuf b2 := by
  induction hs with
  | nil b => exact ⟨b, rfl, hg⟩
  | tryGet b ops n v b2 h1 h2 h3 heq htail ih =>
    obtain ⟨v', b2', heq', hg', hle'⟩ := TryGetBits_good n b h1 h2 h3 hg
    rw [heq] at heq'
    simp only [Except.ok.injEq, Prod.mk.injEq] at heq'
    obtain ⟨hv', hb'⟩ := heq'
    subst hb'
    obtain ⟨bf, hrun, hgf⟩ := ih hg'
    refine ⟨bf, ?_, hgf⟩
    simp only [runOps]
    rw [heq]
    exact hrun
  | get b ops n v b2 h1 h2 h3 heq htail ih =>
    obtain ⟨v', b2', heq', hg'⟩ := GetBits_good n b h1 h2 h3 hg
    rw [heq] at heq'
    simp only [Except.ok.injEq, Prod.mk.injEq] at heq'
    obtain ⟨hv', hb'⟩ := heq'
    subst hb'
    obtain ⟨bf, hrun, hgf⟩ := ih hg'
    refine ⟨bf, ?_, hgf⟩
    simp only [runOps]
    rw [heq]
    exact hrun
  | skip b ops n h0 hn htail ih =>
    obtain ⟨bf, hrun, hgf⟩ := ih (SkipBits_good n b h0 hn hg)
    exact ⟨bf, hrun, hgf⟩
  | toByteBoundary b ops htail ih =>
    obtain ⟨bf, hrun, hgf⟩ := ih (SkipToByteBoundary_good b hg)
    exact ⟨bf, hrun, hgf⟩

-- ## The bit-reversal involution (C9)

/-- `cleanRev` stays below `2^n`. -/
theorem cleanRev_lt (n x : Nat) : cleanRev n x < 2 ^ n := by
  induction n generalizing x with
  | zero => simp [cleanRev]
  | succ n ih =>
    have h2 := ih (x / 2)
    have hpow : 2 ^ (n + 1) = 2 * 2 ^ n := by ring
    rcases Nat.mod_two_eq_zero_or_one x with h | h <;>
      simp only [cleanRev, h, Nat.mul_zero, Nat.mul_one, hpow] <;> omega

/-- Bit `i < n` of `cleanRev n x` is bit `n - 1 - i` of `x`. -/
theorem cleanRev_testBit (n x i : Nat) (h : i < n) :
    (cleanRev n x).testBit i = x.testBit (n - 1 - i) := by
  induction n generalizing x i with
  | zero => omega
  | succ n ih =>
    simp only [cleanRev]
    rw [Nat.testBit_mul_pow_two_add _ (cleanRev_lt n (x / 2)) i]
    by_cases hi : i < n
    · rw [if_pos hi, ih (x / 2) i hi, ← Nat.testBit_add_one]
      congr 1
      omega
    · have hin : i = n := by omega
      subst hin
      rw [if_neg hi]
      have e1 : i - i = 0 := by omega
      have e2 : i + 1 - 1 - i = 0 := by omega
      rw [e1, e2, Nat.testBit_zero, Nat.testBit_zero]
      have e3 : x % 2 % 2 = x % 2 := by omega
      rw [e3]

/-- `cleanRev n` is an involution on `x < 2^n`. -/
theorem cleanRev_involution (n x : Nat) (h : x < 2 ^ n) :
    cleanRev n (cleanRev n x) = x := by
  apply Nat.eq_of_testBit_eq
  intro i
  by_cases hi : i < n
  · rw [cleanRev_testBit n _ i hi, cleanRev_testBit n x (n - 1 - i) (by omega),
      show n - 1 - (n - 1 - i) = i from by omega]
  · have hp : (2:Nat) ^ n ≤ 2 ^ i := Nat.pow_le_pow_right (by norm_num) (by omega)
    have h1 : cleanRev n (cleanRev n x) < 2 ^ i := by
      have := cleanRev_lt n (cleanRev n x)
      omega
    have h2 : x < 2 ^ i := by omega
    rw [Nat.testBit_lt_two_pow h1, Nat.testBit_lt_two_pow h2]

/-- JavaScript `m | bit` for an even accumulator and a single bit is plain
addition. -/
theorem jsOr_even_bit (m bit : Int) (hm0 : 0 ≤ m) (hme : 2 ∣ m) (hm : m < 2147483648)
    (hb : 0 ≤ bit) (hb1 : bit ≤ 1) :
    jsOr m bit = m + bit := by
  rw [jsOr_small m bit hm0 hb hm (by omega)]
  have hb2 : bit.toNat < 2 ^ 1 := by omega
  have e1 : (2:Nat) ^ 1 * (m.toNat / 2) = m.toNat := by omega
  have hlor : Nat.lor m.toNat bit.toNat = m.toNat + bit.toNat := by
    calc Nat.lor m.toNat bit.toNat = m.toNat ||| bit.toNat := rfl
      _ = 2 ^ 1 * (m.toNat / 2) ||| bit.toNat := by rw [e1]
      _ = 2 ^ 1 * (m.toNat / 2) + bit.toNat := (Nat.mul_add_lt_is_or hb2 _).symm
      _ = m.toNat + bit.toNat := by rw [e1]
  rw [hlor]
  omega

namespace HuffmanTree

/-- The base unfolding step of `BitReverseAux`. -/
theorem BitReverseAux_zero (p : Int × Int) : BitReverseAux 0 p = p := rfl

/-- The successor step of `BitReverseAux`. -/
theorem BitReverseAux_succ (k : Nat) (p : Int × Int) :
    BitReverseAux (k + 1) p = BitReverseAux k (brStep p) := rfl

/-- `brStep` on an explicit pair. -/
theorem brStep_pair (c m : Int) :
    brStep (c, m) = (jsSar c 1, jsShl (jsOr m (jsAnd c 1)) 1) := rfl

/-- The loop of `BitReverse` computes `2^k * num + 2 * cleanRev k code` in
its accumulator for in-range operands: each pass moves the low bit of `code`
into the even accumulator and shifts everything up. -/
theorem BitReverseAux_eq (k : Nat) (c m : Int) (hc0 : 0 ≤ c) (hc : c < 65536)
    (hm0 : 0 ≤ m) (hme : 2 ∣ m)
    (hmb : (m + 2) * 2 ^ k ≤ 1073741824) :
    ∃ c2, BitReverseAux k (c, m) =
      (c2, 2 ^ k * m + 2 * ((cleanRev k c.toNat : Nat) : Int)) := by
  induction k generalizing c m with
  | zero =>
    refine ⟨c, ?_⟩
    rw [BitReverseAux_zero]
    have h0 : ((cleanRev 0 c.toNat : Nat) : Int) = 0 := rfl
    rw [h0]
    have h1 : (2:Int) ^ 0 * m + 2 * 0 = m := by ring
    rw [h1]
  | succ k ih =>
    have hp0 : (0:Int) < 2 ^ k := pow_pos (by norm_num) _
    have hp2 : (m + 2) * 2 * 2 ^ k = (m + 2) * 2 ^ (k + 1) := by ring
    have hm30 : m + 2 ≤ 536870912 := by nlinarith
    have hbit : jsAnd c 1 = ((c.toNat % 2 : Nat) : Int) := jsAnd_one c hc0 (by omega)
    have hbit0 : (0:Int) ≤ jsAnd c 1 := by rw [hbit]; omega
    have hbit1 : jsAnd c 1 ≤ 1 := by rw [hbit]; omega
    have hor : jsOr m (jsAnd c 1) = m + jsAnd c 1 :=
      jsOr_even_bit m (jsAnd c 1) hm0 hme (by omega) hbit0 hbit1
    have hshl : jsShl (m + jsAnd c 1) 1 = (m + jsAnd c 1) * 2 := by
      have hs := jsShl_small (m + jsAnd c 1) 1 (by omega) (by norm_num) (by norm_num) ?_
      · rw [hs]
        norm_num
      · norm_num
        nlinarith
    have hsar : jsSar c 1 = c / 2 := by
      rw [jsSar_small c 1 hc0 (by omega) (by norm_num) (by norm_num)]
      norm_num
    have hmb2 : ((m + jsAnd c 1) * 2 + 2) * 2 ^ k ≤ 1073741824 := by
      have hstep : (m + jsAnd c 1) * 2 + 2 ≤ (m + 2) * 2 := by omega
      have := mul_le_mul_of_nonneg_right hstep (le_of_lt hp0)
      omega
    obtain ⟨c2, hrec⟩ := ih (c / 2) ((m + jsAnd c 1) * 2) (by omega) (by omega)
      (by omega) ⟨m + jsAnd c 1, by ring⟩ hmb2
    refine ⟨c2, ?_⟩
    rw [BitReverseAux_succ, brStep_pair, hor, hshl, hsar, hrec]
    have e1 : (c / 2).toNat = c.toNat / 2 := by omega
    rw [e1]
    simp only [cleanRev, Prod.mk.injEq]
    refine ⟨trivial, ?_⟩
    rw [hbit]
    push_cast
    ring

/-- `BitReverse` on a 16-bit-ranged code with a length in 1..16 computes the
arithmetic reversal of the low `length` bits. -/
theorem BitReverse_eq (c n : Int) (h1 : 1 ≤ n) (h2 : n ≤ 16) (hc0 : 0 ≤ c)
    (hc : c < 65536) :
    BitReverse c n = ((cleanRev n.toNat c.toNat : Nat) : Int) := by
  have hp16 : (2:Int) ^ n.toNat ≤ 2 ^ 16 := pow_le_pow_right₀ (by norm_num) (by omega)
  obtain ⟨c2, hrec⟩ := BitReverseAux_eq n.toNat c 0 hc0 hc (by norm_num) (dvd_zero 2)
    (by omega)
  unfold BitReverse
  have hmax : max 1 n.toNat = n.toNat := by omega
  rw [hmax, hrec]
  show jsSar (2 ^ n.toNat * 0 + 2 * ((cleanRev n.toNat c.toNat : Nat) : Int)) 1 = _
  have hX : (2:Int) ^ n.toNat * 0 + 2 * ((cleanRev n.toNat c.toNat : Nat) : Int) =
      2 * ((cleanRev n.toNat c.toNat : Nat) : Int) := by ring
  rw [hX]
  have hcl : cleanRev n.toNat c.toNat < 2 ^ 16 := by
    have ha := cleanRev_lt n.toNat c.toNat
    have hb : (2:Nat) ^ n.toNat ≤ 2 ^ 16 := Nat.pow_le_pow_right (by norm_num) (by omega)
    omega
  rw [jsSar_small _ 1 (by omega) (by omega) (by norm_num) (by norm_num)]
  have e2 : ((1:Int)).toNat = 1 := rfl
  rw [e2, pow_one]
  omega

end HuffmanTree

-- ## The claim theorems

/-- C1: the claim says the stored-block path accepts a block exactly when
`LEN == ~NLEN & 0xFFFF` and in particular decodes `01 01 00 FE FF 41` to the
byte 0x41. In the code the comparison is against the UNMASKED 32-bit `~NLEN`,
which is negative for every 16-bit `NLEN`, so the check can never pass: the
embedded engine throws `InvalidBlockLength` on that very stream even though
`LEN = 1` equals `~NLEN & 0xFFFF` there, and no byte is ever produced. -/
theorem c1_stored_block_always_rejected :
    isErr (Inflate.next 8 40
        (Inflate.inflateNew (.obj [0x01, 0x01, 0x00, 0xFE, 0xFF, 0x41]) false))
      "InvalidBlockLength" = true ∧
    jsAnd (jsNot 0xFFFE) 0xFFFF = 1 ∧
    jsNot 0xFFFE = -65535 ∧ (1 : Int) ≠ -65535 := by decide

/-- C2: the claim says pulling from an engine over `4B 04 00` yields the
byte 0x41 then exhaustion. The embedded engine instead throws
`EndOfStreamException()` on the first pull: the `for..in` bugs of the
Huffman-table construction give the static literal tree a `_maxCodeLength`
of 287, `TryGetBits(287)` can buffer at most 23 bits of the 3-byte stream,
and the symbol's code length (from the mis-built table) exceeds the
available bits. -/
theorem c2_static_block_pull_throws :
    isErr (Inflate.next 8 40 (Inflate.inflateNew (.obj [0x4B, 0x04, 0x00]) false))
      "EndOfStreamException()" = true := by decide

/-- C3: the claim says a table entry for a code longer than `tableBits` is a
NEGATIVE index into the auxiliary arrays, and that `GetNextSymbol` branches
on that sign. The table is a `Uint8Array`, so the negative sentinel `-avail`
written by `CreateTable` wraps mod 256: constructing a tree over a 19-entry
code-length vector whose symbol 0 has length 8 (> tableBits = 7) succeeds
and stores 237 = (-19) mod 256 — not a negative value — so the sign branch
of `GetNextSymbol` takes the direct-symbol path with the out-of-range id
237 (≥ the 19-symbol alphabet). -/
theorem c3_long_code_table_entry_not_negative :
    (HuffmanTree.new c3_codeLengths).isOk = true ∧
    treeTableBits (HuffmanTree.new c3_codeLengths) = 7 ∧
    aget c3_codeLengths 0 = 8 ∧
    treeTableEntry (HuffmanTree.new c3_codeLengths) 127 = 237 ∧
    ¬ treeTableEntry (HuffmanTree.new c3_codeLengths) 127 < 0 ∧
    ¬ (237 : Int) < (c3_codeLengths.size : Int) := by decide

/-- C4 (counterexample to the original claim): a single `GetBits(1)` on a
fresh buffer over an exhausted producer succeeds and leaves the
buffered-bit count at -1, outside the claimed `0..=32`. -/
theorem c4_counterexample :
    InputBuffer.GetBits 1 ⟨0, 0, .obj []⟩ = .ok (0, ⟨0, -1, .obj []⟩) ∧
    ¬ 0 ≤ (⟨0, -1, .obj []⟩ : InputBuffer).bitsInBuffer := by decide

/-- C4 witness: a concrete safe run — fill two bytes, skip 9 of the 16
buffered bits, then align — ends in a well-formed buffer. -/
theorem c4_witness :
    ∃ b2, runOps [.tryGet 16, .skip 9, .toByteBoundary] ⟨0, 0, .obj [3, 7, 250]⟩ =
        .ok b2 ∧ GoodBuf b2 :=
  c4_buffer_ops_preserve_invariant ⟨0, 0, .obj [3, 7, 250]⟩
    [.tryGet 16, .skip 9, .toByteBoundary]
    (SafeOps.tryGet _ _ 16 1795 ⟨1795, 16, .obj [250]⟩ (by decide) (by decide)
      (Or.inr (by decide)) (by decide)
      (SafeOps.skip _ _ 9 (by decide) (by decide)
        (SafeOps.toByteBoundary _ _ (SafeOps.nil _))))
    ⟨by decide, by decide, by decide, by decide, [3, 7, 250], rfl, by decide⟩

/-- C5: for every non-null source, `asInflatable` wraps it, and the
`Inflate` engine of the returned enumerable is constructed from
`this._target[Symbol.iterator]` — the un-invoked method value — so the very
first pull on the iterator the public API returns throws
`TypeError: this._iterator.next is not a function` instead of yielding a
decoded byte, whatever the stream and whatever fuel the loops get. -/
theorem c5_asInflatable_uses_method_value (source : List Int) (fuel fuelB : Nat) :
    asInflatable (some source) = .ok ⟨source⟩ ∧
    (FlateEnumerable.mk source).symbolIterator.input.iterator = .methodValue ∧
    Inflate.next (fuel + 1) fuelB (FlateEnumerable.mk source).symbolIterator =
      .error "TypeError: this._iterator.next is not a function" :=
  ⟨rfl, rfl, rfl⟩

/-- C6: `zlibInflate` returns null (`none`) for every argument, and
`ZLibInflate` is not among the exported names of either module, so its
header validation and Adler-32 verification are unreachable through the
public API. -/
theorem c6_zlibInflate_returns_null :
    (∀ source : Option (List Int), zlibInflate source = none) ∧
    "ZLibInflate" ∉ flateTsExports ∧ "ZLibInflate" ∉ zlibIterableExports :=
  ⟨fun _ => rfl, by decide, by decide⟩

/-- C7 (counterexample to the original claim): distance code 30 does NOT
fail with `GenericInvalidData`; the distance-offset computation succeeds,
reading 14 extra bits and adding them to `s_distanceBasePosition[30] = 0`
(entry 31 is 0 as well). -/
theorem c7_counterexample :
    Inflate.decodeDistanceOffset 30 ⟨5, 20, .obj []⟩ = .ok (5, ⟨0, 6, .obj []⟩) ∧
    aget Inflate.s_distanceBasePosition 30 = 0 ∧
    aget Inflate.s_distanceBasePosition 31 = 0 ∧
    ¬ Inflate.decodeDistanceOffset 30 ⟨5, 20, .obj []⟩ =
        .error "GenericInvalidData" := by decide

/-- C7 (amended): for a decoded distance code of 30 or 31 over a well-formed
input able to serve a 14-bit read, `DecodeBlock`'s distance-offset
computation raises no error at all: it reads `(code - 2) >> 1 = 14` extra
bits and returns `s_distanceBasePosition[code] + bits`, where the base
entry consulted is the zero filler — the code DOES reference
`distanceBase[30]`/`distanceBase[31]` and produces a bogus small offset
instead of the claimed `GenericInvalidData` failure. -/
theorem c7_distance_codes_30_31_no_error (d : Int) (input : InputBuffer)
    (hd : d = 30 ∨ d = 31)
    (h3 : 14 ≤ input.bitsInBuffer ∨ 2 ≤ iterLen input.iterator)
    (hg : GoodBuf input) :
    ∃ bits input2, InputBuffer.GetBits 14 input = .ok (bits, input2) ∧
      Inflate.decodeDistanceOffset d input =
        .ok (aget Inflate.s_distanceBasePosition d + bits, input2) ∧
      aget Inflate.s_distanceBasePosition d = 0 := by
  obtain ⟨bits, input2, heq, _⟩ := GetBits_good 14 input (by norm_num) (by norm_num) h3 hg
  rcases hd with h | h
  · subst h
    refine ⟨bits, input2, heq, ?_, by decide⟩
    unfold Inflate.decodeDistanceOffset
    rw [if_pos (by norm_num)]
    have hs : InputBuffer.GetBits (jsSar ((30:Int) - 2) 1) input = .ok (bits, input2) := by
      rw [show jsSar ((30:Int) - 2) 1 = (14:Int) from by decide]
      exact heq
    rw [hs]
  · subst h
    refine ⟨bits, input2, heq, ?_, by decide⟩
    unfold Inflate.decodeDistanceOffset
    rw [if_pos (by norm_num)]
    have hs : InputBuffer.GetBits (jsSar ((31:Int) - 2) 1) input = .ok (bits, input2) := by
      rw [show jsSar ((31:Int) - 2) 1 = (14:Int) from by decide]
      exact heq
    rw [hs]

/-- C7 witness: code 30 over a buffer holding 20 zero bits. -/
theorem c7_witness :
    ∃ bits input2, InputBuffer.GetBits 14 ⟨0, 20, .obj []⟩ = .ok (bits, input2) ∧
      Inflate.decodeDistanceOffset 30 ⟨0, 20, .obj []⟩ =
        .ok (aget Inflate.s_distanceBasePosition 30 + bits, input2) ∧
      aget Inflate.s_distanceBasePosition 30 = 0 :=
  c7_distance_codes_30_31_no_error 30 ⟨0, 20, .obj []⟩ (Or.inl rfl)
    (Or.inl (by decide))
    ⟨by decide, by decide, by decide, by decide, [], rfl, by decide⟩

/-- C8 (counterexample to the original claim): the header `78 20` has FDICT
(bit 5 of FLG) set and satisfies the compression-method, window-size and
header-check constraints, yet construction SUCCEEDS — there is no
`UnsupportedPreset` failure, because the constructor never looks at the
FDICT bit. -/
theorem c8_counterexample :
    (ZLibInflateNew [0x78, 0x20]).isOk = true ∧
    jsAnd 0x20 0x20 = 0x20 ∧
    jsAnd 0x78 0xF = 8 ∧
    ¬ jsSar 0x78 4 + 8 > 0x0F ∧
    Int.tmod (jsShl 0x78 8 + 0x20) 31 = 0 := by decide

/-- C8 (amended): whenever CMF and FLG pass the three checks the constructor
does make (compression method, window size, header check), construction
succeeds unconditionally — the FDICT bit of FLG is never examined, so a set
FDICT bit cannot fail construction. -/
theorem c8_construction_ignores_fdict (cm flg : Int) (rest : List Int)
    (h1 : jsAnd cm 0xF = 8) (h2 : ¬ jsSar cm 4 + 8 > 0x0F)
    (h3 : Int.tmod (jsShl cm 8 + flg) 31 = 0) :
    ZLibInflateNew (cm :: flg :: rest) = .ok (Inflate.inflateNew (.obj rest) true) := by
  unfold ZLibInflateNew
  dsimp only [iterNext]
  rw [if_neg (by simp [h1]), if_neg h2, if_neg (by simp [h3])]

/-- C8 witness: the FDICT-set header `78 20` constructs an engine over the
remaining (empty) stream. -/
theorem c8_witness :
    ZLibInflateNew [0x78, 0x20] = .ok (Inflate.inflateNew (.obj []) true) :=
  c8_construction_ignores_fdict 0x78 0x20 [] (by decide) (by decide) (by decide)

/-- C9: for every length `1 ≤ n ≤ 16` and every code `0 ≤ x < 2^n`,
`BitReverse` is an involution: `BitReverse(BitReverse(x, n), n) = x`. -/
theorem c9_bit_reverse_involution (x n : Int) (h1 : 1 ≤ n) (h2 : n ≤ 16)
    (h3 : 0 ≤ x) (h4 : x < 2 ^ n.toNat) :
    HuffmanTree.BitReverse (HuffmanTree.BitReverse x n) n = x := by
  have hp16I : (2:Int) ^ n.toNat ≤ 2 ^ 16 := pow_le_pow_right₀ (by norm_num) (by omega)
  have hx16 : x < 65536 := by omega
  rw [HuffmanTree.BitReverse_eq x n h1 h2 h3 hx16]
  have hcl : cleanRev n.toNat x.toNat < 2 ^ 16 := by
    have ha := cleanRev_lt n.toNat x.toNat
    have hb : (2:Nat) ^ n.toNat ≤ 2 ^ 16 := Nat.pow_le_pow_right (by norm_num) (by omega)
    omega
  rw [HuffmanTree.BitReverse_eq _ n h1 h2 (Int.natCast_nonneg _) (by omega)]
  rw [Int.toNat_natCast]
  have hxlt : x.toNat < 2 ^ n.toNat := by
    have := int_pow_cast n.toNat
    omega
  rw [cleanRev_involution n.toNat x.toNat hxlt]
  omega

/-- C9 witness: reversing 5 over 3 bits twice gives 5 back. -/
theorem c9_witness :
    HuffmanTree.BitReverse (HuffmanTree.BitReverse 5 3) 3 = 5 :=
  c9_bit_reverse_involution 5 3 (by decide) (by decide) (by decide) (by decide)

/-- C10 (counterexample to the original claim at `n = 32`): `GetBits(32)` on
an exhausted producer with 31 in the register returns 0, not the low 32 bits
(31), because the mask `(1 << 32) - 1` wraps to 0. -/
theorem c10_counterexample :
    InputBuffer.GetBits 32 ⟨31, 5, .obj []⟩ = .ok (0, ⟨31, -27, .obj []⟩) ∧
    ((u32 31 % 2 ^ (32:Nat) : Nat) : Int) = 31 ∧ (0 : Int) ≠ 31 ∧
    jsShl 1 32 - 1 = 0 := by decide

/-- C10 (amended, for `1 ≤ n ≤ 31`): on an exhausted byte producer,
`GetBits(n)` performs its (at most two) fills without obtaining anything,
succeeds anyway, returns the low `n` bits of the unsigned staging register
(zero-extended), and unconditionally decrements the buffered-bit count by
`n`, leaving `AvailableBits` negative whenever fewer than `n` bits were
buffered — no end-of-stream error is signalled. -/
theorem c10_getbits_exhausted_producer (n : Int) (b : InputBuffer) (h1 : 1 ≤ n)
    (h2 : n ≤ 31) (hit : b.iterator = .obj []) :
    InputBuffer.GetBits n b =
      .ok (((u32 b.bitBuffer % 2 ^ n.toNat : Nat) : Int),
           ⟨jsSar b.bitBuffer n, b.bitsInBuffer - n, .obj []⟩) ∧
    InputBuffer.AvailableBits ⟨jsSar b.bitBuffer n, b.bitsInBuffer - n, .obj []⟩ =
      b.bitsInBuffer - n ∧
    (b.bitsInBuffer < n →
      InputBuffer.AvailableBits ⟨jsSar b.bitBuffer n, b.bitsInBuffer - n, .obj []⟩ < 0) := by
  obtain ⟨bb, cnt, it⟩ := b
  change it = JSIterator.obj [] at hit
  subst hit
  refine ⟨?_, rfl, ?_⟩
  · unfold InputBuffer.GetBits InputBuffer.TryGetBits
    by_cases hlt : cnt < n
    · rw [if_pos hlt]
      dsimp only [iterNext]
      rw [jsAnd_mask bb n h1 h2]
    · rw [if_neg hlt]
      dsimp only []
      rw [jsAnd_mask bb n h1 h2]
  · intro h
    change cnt < n at h
    show cnt - n < 0
    omega

/-- C10 witness: `GetBits(8)` on an exhausted producer with 5 bits buffered
returns the low 8 bits of the register and leaves the count at -3. -/
theorem c10_witness :
    InputBuffer.GetBits 8 ⟨31, 5, .obj []⟩ =
      .ok (((u32 31 % 2 ^ (8:Int).toNat : Nat) : Int), ⟨jsSar 31 8, 5 - 8, .obj []⟩) ∧
    InputBuffer.AvailableBits ⟨jsSar 31 8, 5 - 8, .obj []⟩ = 5 - 8 ∧
    ((5:Int) < 8 → InputBuffer.AvailableBits ⟨jsSar 31 8, 5 - 8, .obj []⟩ < 0) :=
  c10_getbits_exhausted_producer 8 ⟨31, 5, .obj []⟩ (by decide) (by decide) rfl

end FlateTs
